import Mathlib

/-!
# imageproxy: canonical option encoding and option parsing

A shallow embedding of `data.go` (package `imageproxy`) and `proxy/data.go`
(package `proxy`), and the properties of the option encoder and of the two
option parsers.

Modelling choices:

* Go strings are Lean strings (valid UTF-8); `len` is the UTF-8 byte length.
* Go `int` is `Int`; `strconv.Atoi` enforces the 64-bit range, and statements
  that print and read an `int` assume it lies in that range (`IsInt`).
* `float64` is a type parameter `F` with the operations the code applies to
  it (`Float64Ops`): the code only creates, compares with zero, prints and
  parses floats.  The general statements hold for every such `F`; `Float64`
  is the binary64 instance at which concrete inputs are evaluated.
* A `url.Values` map is given as the list of its `(key, values)` entries in the
  order in which the `range` loop visits them, which Go leaves unspecified.
-/

namespace Go

/-- The float64 operations used by the code: the zero value, the comparisons
`f == 0` and `f > 0`, the text `fmt.Sprintf("%v", f)` and
`strconv.ParseFloat(s, 64)` (the returned value, and whether `err == nil`). -/
class Float64Ops (F : Type) where
  zero : F
  isZero : F → Bool
  gtZero : F → Bool
  fmtV : F → String
  parseFloat : String → F × Bool

/-- The builtin `len` on a string: its number of bytes. -/
def len (s : String) : Nat := s.utf8ByteSize

/-- Splitting a character list at every occurrence of `sep`. -/
def splitChars (sep : Char) : List Char → List (List Char)
  | [] => [[]]
  | c :: cs =>
    if c = sep then [] :: splitChars sep cs
    else
      match splitChars sep cs with
      | [] => [[c]]
      | h :: t => (c :: h) :: t

/-- Joining character lists with `sep` between consecutive elements. -/
def joinChars (sep : List Char) : List (List Char) → List Char
  | [] => []
  | [a] => a
  | a :: b :: rest => a ++ sep ++ joinChars sep (b :: rest)

namespace strings

/-- The call `strings.Split(s, sep)` for a one-byte separator `sep`. -/
def Split (s : String) (sep : Char) : List String :=
  (splitChars sep s.data).map String.mk

/-- The call `strings.SplitN(s, sep, 2)` for a one-byte separator `sep`: `s` is
cut at the first `sep` only. -/
def SplitN2 (s : String) (sep : Char) : List String :=
  if sep ∈ s.data then
    [String.mk (s.data.takeWhile (fun c => c != sep)),
     String.mk ((s.data.dropWhile (fun c => c != sep)).drop 1)]
  else [s]

/-- The call `strings.Join(elems, sep)`. -/
def Join (elems : List String) (sep : String) : String :=
  String.mk (joinChars sep.data (elems.map String.data))

/-- The call `strings.HasPrefix(s, pre)`. -/
def HasPrefix (s pre : String) : Bool := pre.data.isPrefixOf s.data

/-- The call `strings.TrimPrefix(s, pre)`. -/
def TrimPrefix (s pre : String) : String :=
  if HasPrefix s pre then String.mk (s.data.drop pre.data.length) else s

/-- The call `strings.Contains(s, sep)` for a one-byte `sep`. -/
def Contains (s : String) (sep : Char) : Bool := decide (sep ∈ s.data)

end strings

/-- Decimal digits of a natural number, most significant first (`fuel` bounds
the number of digits). -/
def natDigitsAux : Nat → Nat → List Char → List Char
  | 0, _, acc => acc
  | fuel + 1, n, acc =>
    if n / 10 = 0 then Nat.digitChar (n % 10) :: acc
    else natDigitsAux fuel (n / 10) (Nat.digitChar (n % 10) :: acc)

/-- Decimal digits of a natural number. -/
def natDigits (n : Nat) : List Char := natDigitsAux (n + 1) n []

/-- The text `fmt.Sprintf("%d", i)` of an integer. -/
def fmtD (i : Int) : String :=
  String.mk (if i < 0 then '-' :: natDigits i.natAbs else natDigits i.natAbs)

/-- Value of a run of decimal digits read left to right from accumulator
`acc`; `none` when a character is not a digit. -/
def digitsVal (acc : Nat) : List Char → Option Nat
  | [] => some acc
  | c :: cs => if c.isDigit then digitsVal (acc * 10 + (c.toNat - 48)) cs else none

/-- An optional leading sign: whether it is `-`, and the rest. -/
def splitSign : List Char → Bool × List Char
  | '-' :: cs => (true, cs)
  | '+' :: cs => (false, cs)
  | cs => (false, cs)

namespace strconv

/-- The loop of `strconv.ParseUint(s, 10, 64)` from the value `n` read so far.
The characters are read left to right: a character that is not a digit is a
syntax error (`none`); a digit at which the value overflows 64 bits is a range
error, returned at once with the value `2 ^ 64 - 1` (`some (2 ^ 64 - 1, false)`),
whatever follows; at the end the value is returned (`some (n, true)`). -/
def parseUintLoop (n : Nat) : List Char → Option (Nat × Bool)
  | [] => some (n, true)
  | c :: cs =>
    if c.isDigit then
      if (2 ^ 64 - 1) / 10 + 1 ≤ n then some (2 ^ 64 - 1, false)
      else if 2 ^ 64 - 1 < n * 10 + (c.toNat - 48) then some (2 ^ 64 - 1, false)
      else parseUintLoop (n * 10 + (c.toNat - 48)) cs
    else none

/-- The call `strconv.Atoi(s)` on a 64-bit platform: the returned value and
whether `err == nil`.  After an optional sign `ParseUint` reads the digits.  A
syntax error returns 0.  A range error of `ParseUint`, or a value outside the
range of `int`, returns the nearest bound of `int`. -/
def Atoi (s : String) : Int × Bool :=
  let sb : Bool × List Char := splitSign s.data
  if sb.2 = [] then (0, false)
  else
    match parseUintLoop 0 sb.2 with
    | none => (0, false)
    | some (un, _) =>
      if sb.1 then (if 2 ^ 63 < un then (-(2 ^ 63 : Int), false) else (-(un : Int), true))
      else (if 2 ^ 63 ≤ un then ((2 ^ 63 : Int) - 1, false) else ((un : Int), true))

end strconv

/-- The values of an IEEE 754 binary64 number: not-a-number, the two
infinities, and the finite values `(-1)^neg * m * 2^e` with `m < 2^53` and
`-1074 ≤ e ≤ 971`, normalised so that `2^52 ≤ m` unless `e = -1074` (zero is
`m = 0`, `e = -1074`). -/
inductive Float64 where
  | nan
  | inf (neg : Bool)
  | fin (neg : Bool) (m : Nat) (e : Int)
deriving DecidableEq

namespace Float64

/-- Floor of the binary logarithm (`fuel` bounds the number of halvings). -/
def log2Aux : Nat → Nat → Nat
  | 0, _ => 0
  | fuel + 1, n => if n < 2 then 0 else log2Aux fuel (n / 2) + 1

/-- Floor of the binary logarithm of a positive number. -/
def log2 (n : Nat) : Nat := log2Aux n n

/-- Round half to even of the quotient `num / den`. -/
def roundDiv (num den : Nat) : Nat :=
  let q := num / den
  let r := num % den
  if den < 2 * r ∨ (2 * r = den ∧ q % 2 = 1) then q + 1 else q

/-- The binary64 nearest (ties to even) to the rational `n / d` with the given
sign, and whether it is in range (`false` when it overflows to an infinity). -/
def ofRat (neg : Bool) (n d : Nat) : Float64 × Bool :=
  if n = 0 then (fin neg 0 (-1074), true)
  else
    let e0 : Int := (log2 n : Int) - (log2 d : Int) - 52
    let below : Bool :=
      if 0 ≤ e0 then decide (n < 2 ^ 52 * d * 2 ^ e0.toNat)
      else decide (n * 2 ^ (-e0).toNat < 2 ^ 52 * d)
    let e1 : Int := if below then e0 - 1 else e0
    let e : Int := max e1 (-1074)
    let q := if 0 ≤ e then roundDiv n (d * 2 ^ e.toNat) else roundDiv (n * 2 ^ (-e).toNat) d
    let q2 : Nat × Int := if q = 2 ^ 53 then (2 ^ 52, e + 1) else (q, e)
    if 971 < q2.2 then (inf neg, false)
    else (fin neg q2.1 (if q2.1 = 0 then -1074 else q2.2), true)

/-- The sign-less special names `inf`, `infinity` (any case). -/
def isInfName (cs : List Char) : Bool :=
  decide (cs.map Char.toLower = "inf".data ∨ cs.map Char.toLower = "infinity".data)

/-- Scanning the mantissa of a decimal literal: the digits read so far as a
number, the count of digits after the point, whether a point and a digit were
seen, and the unread rest. -/
def scanMant : Nat → Nat → Bool → Bool → List Char → Nat × Nat × Bool × List Char
  | m, fr, _, saw, [] => (m, fr, saw, [])
  | m, fr, dot, saw, c :: cs =>
    if c.isDigit then
      scanMant (m * 10 + (c.toNat - 48)) (if dot then fr + 1 else fr) dot true cs
    else if c = '.' ∧ dot = false then scanMant m fr true saw cs
    else (m, fr, saw, c :: cs)

/-- The exponent part of a decimal literal: `none` when malformed. -/
def scanExp : List Char → Option Int
  | [] => some 0
  | c :: cs =>
    if c = 'e' ∨ c = 'E' then
      match cs with
      | [] => none
      | '+' :: ds => if ds = [] then none else (digitsVal 0 ds).map Int.ofNat
      | '-' :: ds => if ds = [] then none else (digitsVal 0 ds).map (fun n => -(n : Int))
      | ds => (digitsVal 0 ds).map Int.ofNat
    else none

/-- The call `strconv.ParseFloat(s, 64)` on decimal literals and on the special
names: the value and whether `err == nil`.  A syntax error returns 0, an
overflow returns an infinity with an error.  Hexadecimal literals and
underscores between digits, which Go also accepts, are not covered by this
instance and are reported as syntax errors. -/
def parse (s : String) : Float64 × Bool :=
  let sb : Bool × Bool × List Char :=
    match s.data with
    | '-' :: cs => (true, true, cs)
    | '+' :: cs => (false, true, cs)
    | cs => (false, false, cs)
  if isInfName sb.2.2 then (inf sb.1, true)
  else if sb.2.1 = false ∧ sb.2.2.map Char.toLower = "nan".data then (nan, true)
  else
    let r := scanMant 0 0 false false sb.2.2
    if r.2.2.1 = false then (fin false 0 (-1074), false)
    else
      match scanExp r.2.2.2 with
      | none => (fin false 0 (-1074), false)
      | some ex =>
        let e10 : Int := ex - (r.2.1 : Int)
        let mag : Int := ((natDigits r.1).length : Int) + e10
        if r.1 = 0 then (fin sb.1 0 (-1074), true)
        else if 310 < mag then (inf sb.1, false)
        else if mag < -330 then (fin sb.1 0 (-1074), true)
        else if 0 ≤ e10 then ofRat sb.1 (r.1 * 10 ^ e10.toNat) 1
        else ofRat sb.1 r.1 (10 ^ (-e10).toNat)

/-- Whether `10^k ≤ n / d`. -/
def geP10 (n d : Nat) (k : Int) : Bool :=
  if 0 ≤ k then decide (10 ^ k.toNat * d ≤ n) else decide (d ≤ n * 10 ^ (-k).toNat)

/-- The decimal exponent `k` of the positive rational `n / d`:
`10^k ≤ n / d < 10^(k+1)`. -/
def exp10 (n d : Nat) : Int :=
  let k0 : Int := (((log2 n : Int) - (log2 d : Int)) * 30103) / 100000
  (([k0 + 2, k0 + 1, k0, k0 - 1].find? (geP10 n d)).getD (k0 - 2))

/-- The integer nearest to `(n / d) * 10^s`. -/
def scaled (n d : Nat) (s : Int) : Nat :=
  if 0 ≤ s then roundDiv (n * 10 ^ s.toNat) d else roundDiv n (d * 10 ^ (-s).toNat)

/-- Removing the trailing zeros of a digit list. -/
def stripZeros (ds : List Char) : List Char :=
  (ds.reverse.dropWhile (fun c => c == '0')).reverse

/-- The shortest decimal that reads back as the positive finite value
`m * 2^e`: its digits and the position `dp` of the decimal point
(the value is `0.digits * 10^dp`). -/
def shortest (m : Nat) (e : Int) : List Char × Int :=
  let n := if 0 ≤ e then m * 2 ^ e.toNat else m
  let d := if 0 ≤ e then 1 else 2 ^ (-e).toNat
  let k := exp10 n d
  let try1 (nd : Nat) : Option (List Char × Int) :=
    let s : Int := (nd : Int) - 1 - k
    let q := scaled n d s
    let back := if 0 ≤ s then ofRat false q (10 ^ s.toNat) else ofRat false (q * 10 ^ (-s).toNat) 1
    if back = (fin false m e, true) then
      some (stripZeros (natDigits q), ((natDigits q).length : Int) - s)
    else none
  ((List.range 17).findSome? (fun i => try1 (i + 1))).getD ([], 0)

/-- The digit at position `j` of `ds`, `0` outside it. -/
def digitAt (ds : List Char) (j : Int) : Char :=
  if 0 ≤ j then ds.getD j.toNat '0' else '0'

/-- The layout of `%v` (format `g` with the shortest precision) for digits
`ds` and decimal point position `dp`: exponent form when the exponent is below
`-4` or at least `6`, positional form otherwise. -/
def layout (ds : List Char) (dp : Int) : List Char :=
  let ex := dp - 1
  if ex < -4 ∨ 6 ≤ ex then
    let mant := match ds with
      | [] => ['0']
      | [c] => [c]
      | c :: cs => c :: '.' :: cs
    let exd := natDigits ex.natAbs
    mant ++ ['e', if ex < 0 then '-' else '+'] ++ (if exd.length < 2 then '0' :: exd else exd)
  else
    let ip := if 0 < dp then (List.range dp.toNat).map (fun i => digitAt ds i) else ['0']
    let prec := ((ds.length : Int) - dp).toNat
    let fp := if 0 < prec then '.' :: (List.range prec).map (fun i => digitAt ds (dp + i)) else []
    ip ++ fp

/-- The text `fmt.Sprintf("%v", f)` of a binary64 value. -/
def format : Float64 → String
  | nan => "NaN"
  | inf false => "+Inf"
  | inf true => "-Inf"
  | fin neg m e =>
    let body := if m = 0 then ['0'] else layout (shortest m e).1 (shortest m e).2
    String.mk (if neg then '-' :: body else body)

end Float64

/-- The binary64 instance of the float64 operations. -/
instance : Float64Ops Float64 where
  zero := Float64.fin false 0 (-1074)
  isZero f := match f with
    | Float64.fin _ 0 _ => true
    | _ => false
  gtZero f := match f with
    | Float64.inf false => true
    | Float64.fin false (_ + 1) _ => true
    | _ => false
  fmtV := Float64.format
  parseFloat := Float64.parse

namespace strings

/-- The call `strings.TrimRight(s, cutset)` for a cutset of the one character
`c`: the trailing run of `c` is removed. -/
def TrimRight (s : String) (c : Char) : String :=
  String.mk (s.data.reverse.dropWhile (fun d => d == c)).reverse

end strings

/-- Dropping the first `n` bytes of a text; `none` when `n` exceeds its length.
An offset inside a multi-byte character, which a Lean string cannot express,
is moved to the end of that character; on ASCII text, such as an escaped path,
every offset is a character boundary. -/
def dropBytes : List Char → Nat → Option (List Char)
  | cs, 0 => some cs
  | [], _ + 1 => none
  | c :: cs, n + 1 => dropBytes cs (n + 1 - c.utf8Size)

/-- The slice expression `s[n:]`; `none` is the run-time panic for an offset
out of range. -/
def sliceFrom (s : String) (n : Nat) : Option String :=
  (dropBytes s.data n).map String.mk

/-- A `url.URL` value.  `Scheme` and `RawQuery` are the fields the code reads
and writes; the others are only handled by the library.  `User` is the
user-information text and `Path` the path in its escaped form (the text
`EscapedPath()` returns). -/
structure URL where
  Scheme : String
  Opaque : String
  User : Option String
  Host : String
  Path : String
  ForceQuery : Bool
  RawQuery : String
  Fragment : String
deriving DecidableEq

/-- The method `IsAbs`: the URL has a non-empty scheme. -/
def URL.IsAbs (u : URL) : Bool := u.Scheme != ""

/-- The functions of package `net/url` that the code calls: `url.Parse` (`none`
when it returns an error, and then a nil URL), the method `EscapedPath` and
the method `ResolveReference` (receiver first). -/
structure URLLib where
  Parse : String → Option URL
  EscapedPath : URL → String
  ResolveReference : URL → URL → URL

/-- An `*http.Request` as the code uses it: its `URL`, and the outcome of
`ParseForm()`, that is the form `r.Form` as the `range` loop of
`ParseFormValues` visits it, or `none` when `ParseForm` returns an error. -/
structure HTTPRequest where
  URL : URL
  Form : Option (List (String × List String))
deriving DecidableEq

/-- The outcome of a call that returns a value or an error, or panics. -/
inductive Outcome (ε α : Type) where
  | ok (a : α)
  | error (e : ε)
  | panic
deriving DecidableEq

namespace url

/-- Cutting a text around the first `sep`: the text before it and the text
after it (empty when there is no `sep`). -/
def cut (sep : Char) (s : List Char) : List Char × List Char :=
  (s.takeWhile (fun c => c != sep), (s.dropWhile (fun c => c != sep)).drop 1)

/-- The loop of `getScheme`: `acc` is the reversed text read so far. -/
def getSchemeAux (rawURL : List Char) : List Char → List Char → Option (List Char × List Char)
  | _, [] => some ([], rawURL)
  | acc, c :: cs =>
    if c.isAlpha then getSchemeAux rawURL (c :: acc) cs
    else if c.isDigit ∨ c = '+' ∨ c = '-' ∨ c = '.' then
      if acc = [] then some ([], rawURL) else getSchemeAux rawURL (c :: acc) cs
    else if c = ':' then
      if acc = [] then none else some (acc.reverse, cs)
    else some ([], rawURL)

/-- The function `getScheme`: the scheme and the rest, `none` for the error
`missing protocol scheme`. -/
def getScheme (rawURL : List Char) : Option (List Char × List Char) :=
  getSchemeAux rawURL [] rawURL

/-- The function `parseAuthority` without validation or decoding: the user
information before the last `@`, and the host. -/
def parseAuthority (authority : List Char) : Option String × String :=
  if '@' ∈ authority then
    (some (String.mk ((authority.reverse.dropWhile (fun c => c != '@')).drop 1).reverse),
      String.mk (authority.reverse.takeWhile (fun c => c != '@')).reverse)
  else (none, String.mk authority)

/-- The function `parse` (not via a request) on the text before the fragment. -/
def parseNoFragment (rawURL : List Char) : Option URL :=
  if rawURL.any (fun c => decide (c.toNat < 32 ∨ c.toNat = 127)) then none
  else if rawURL = ['*'] then
    some { Scheme := "", Opaque := "", User := none, Host := "", Path := "*",
           ForceQuery := false, RawQuery := "", Fragment := "" }
  else
    match getScheme rawURL with
    | none => none
    | some (scheme0, rest0) =>
      let scheme := String.mk (scheme0.map Char.toLower)
      let force : Bool := decide (rest0.getLast? = some '?' ∧ rest0.count '?' = 1)
      let rest := if force then rest0.dropLast else (cut '?' rest0).1
      let rawQuery := if force then "" else String.mk (cut '?' rest0).2
      if rest.head? ≠ some '/' ∧ scheme ≠ "" then
        some { Scheme := scheme, Opaque := String.mk rest, User := none, Host := "", Path := "",
               ForceQuery := force, RawQuery := rawQuery, Fragment := "" }
      else if rest.head? ≠ some '/' ∧ ':' ∈ (cut '/' rest).1 then none
      else if (scheme ≠ "" ∨ ¬ "///".data.isPrefixOf rest) ∧ "//".data.isPrefixOf rest then
        let authority := (rest.drop 2).takeWhile (fun c => c != '/')
        let path := (rest.drop 2).dropWhile (fun c => c != '/')
        some { Scheme := scheme, Opaque := "", User := (parseAuthority authority).1,
               Host := (parseAuthority authority).2, Path := String.mk path,
               ForceQuery := force, RawQuery := rawQuery, Fragment := "" }
      else
        some { Scheme := scheme, Opaque := "", User := none, Host := "", Path := String.mk rest,
               ForceQuery := force, RawQuery := rawQuery, Fragment := "" }

/-- The function `url.Parse`, `none` when it returns an error.  The text is cut
at the first `#`, the scheme, query, authority and path are separated as Go
does, and the errors for a control character, a missing protocol scheme and a
colon in the first path segment are reported.  This instance does no
percent-decoding and no validation of the host, port and user information, so
it accepts the texts Go rejects for those reasons. -/
def Parse (rawURL : String) : Option URL :=
  (parseNoFragment (cut '#' rawURL.data).1).map
    (fun u => { u with Fragment := String.mk (cut '#' rawURL.data).2 })

/-- The function `resolvePath`: the reference path resolved against the base
path, with the dot segments removed. -/
def resolvePath (base ref : List Char) : List Char :=
  let full :=
    if ref = [] then base
    else if ref.head? ≠ some '/' then
      (base.reverse.dropWhile (fun c => c != '/')).reverse ++ ref
    else ref
  if full = [] then []
  else
    let src := splitChars '/' full
    let dst := src.foldl
      (fun dst elem =>
        if elem = ['.'] then dst
        else if elem = ['.', '.'] then dst.dropLast
        else dst ++ [elem]) ([] : List (List Char))
    let dst := if src.getLast? = some ['.'] ∨ src.getLast? = some ['.', '.'] then dst ++ [[]]
               else dst
    '/' :: (joinChars ['/'] dst).dropWhile (fun c => c == '/')

/-- The method `ResolveReference` of the base URL `u` on the reference `ref`. -/
def ResolveReference (u ref : URL) : URL :=
  let url := if ref.Scheme = "" then { ref with Scheme := u.Scheme } else ref
  if ref.Scheme ≠ "" ∨ ref.Host ≠ "" ∨ ref.User ≠ none then
    { url with Path := String.mk (resolvePath ref.Path.data []) }
  else if ref.Opaque ≠ "" then
    { url with User := none, Host := "", Path := "" }
  else
    let url :=
      if ref.Path = "" ∧ ref.RawQuery = "" then
        { url with RawQuery := u.RawQuery,
                   Fragment := if ref.Fragment = "" then u.Fragment else url.Fragment }
      else url
    { url with Host := u.Host, User := u.User,
               Path := String.mk (resolvePath u.Path.data ref.Path.data) }

end url

/-- The instance of the URL library at which concrete requests are evaluated. -/
def netURL : URLLib :=
  { Parse := url.Parse, EscapedPath := fun u => u.Path, ResolveReference := url.ResolveReference }

end Go

namespace Imageproxy

open Go

def optFit : String := "fit"
def optFlipVertical : String := "fv"
def optFlipHorizontal : String := "fh"
def optFormatJPEG : String := "jpeg"
def optFormatPNG : String := "png"
def optFormatTIFF : String := "tiff"
def optRotatePrefix : String := "r"
def optQualityPrefix : String := "q"
def optSignaturePrefix : String := "s"
def optSizeDelimiter : Char := 'x'
def optScaleUp : String := "scaleUp"
def optCropX : String := "cx"
def optCropY : String := "cy"
def optCropWidth : String := "cw"
def optCropHeight : String := "ch"
def optSmartCrop : String := "sc"

/-- Options specifies transformations to be performed on the requested image. -/
structure Options (F : Type) where
  Width : F
  Height : F
  Fit : Bool
  Rotate : Int
  FlipVertical : Bool
  FlipHorizontal : Bool
  Quality : Int
  Signature : String
  ScaleUp : Bool
  Format : String
  CropX : F
  CropY : F
  CropWidth : F
  CropHeight : F
  SmartCrop : Bool
deriving DecidableEq

variable {F : Type} [Float64Ops F]

/-- The zero value of `Options` (`var options Options`, `Options{}`). -/
def emptyOptions : Options F :=
  { Width := Float64Ops.zero, Height := Float64Ops.zero, Fit := false, Rotate := 0,
    FlipVertical := false, FlipHorizontal := false, Quality := 0, Signature := "",
    ScaleUp := false, Format := "",
    CropX := Float64Ops.zero, CropY := Float64Ops.zero,
    CropWidth := Float64Ops.zero, CropHeight := Float64Ops.zero, SmartCrop := false }

/-- The slice `opts` that `Options.String` builds by successive `append`s. -/
def Options.optsSlice (o : Options F) : List String :=
  let opts := [Float64Ops.fmtV o.Width ++ String.singleton optSizeDelimiter ++ Float64Ops.fmtV o.Height]
  let opts := if o.Fit then opts ++ [optFit] else opts
  let opts := if o.Rotate ≠ 0 then opts ++ [optRotatePrefix ++ fmtD o.Rotate] else opts
  let opts := if o.FlipVertical then opts ++ [optFlipVertical] else opts
  let opts := if o.FlipHorizontal then opts ++ [optFlipHorizontal] else opts
  let opts := if o.Quality ≠ 0 then opts ++ [optQualityPrefix ++ fmtD o.Quality] else opts
  let opts := if o.Signature ≠ "" then opts ++ [optSignaturePrefix ++ o.Signature] else opts
  let opts := if o.ScaleUp then opts ++ [optScaleUp] else opts
  let opts := if o.Format ≠ "" then opts ++ [o.Format] else opts
  let opts := if !Float64Ops.isZero o.CropX then opts ++ [optCropX ++ Float64Ops.fmtV o.CropX] else opts
  let opts := if !Float64Ops.isZero o.CropY then opts ++ [optCropY ++ Float64Ops.fmtV o.CropY] else opts
  let opts := if !Float64Ops.isZero o.CropWidth then opts ++ [optCropWidth ++ Float64Ops.fmtV o.CropWidth] else opts
  let opts := if !Float64Ops.isZero o.CropHeight then opts ++ [optCropHeight ++ Float64Ops.fmtV o.CropHeight] else opts
  let opts := if o.SmartCrop then opts ++ [optSmartCrop] else opts
  opts

/-- The method `func (o Options) String() string`. -/
def Options.String (o : Options F) : String :=
  strings.Join o.optsSlice ","

/-- The body of the `switch` in `ParseOptions`, applied to one token `opt`. -/
def parseOpt (options : Options F) (opt : String) : Options F :=
  if len opt = 0 then options
  else if opt = optFit then { options with Fit := true }
  else if opt = optFlipVertical then { options with FlipVertical := true }
  else if opt = optFlipHorizontal then { options with FlipHorizontal := true }
  else if opt = optScaleUp then { options with ScaleUp := true }
  else if opt = optFormatJPEG ∨ opt = optFormatPNG ∨ opt = optFormatTIFF then
    { options with Format := opt }
  else if opt = optSmartCrop then { options with SmartCrop := true }
  else if strings.HasPrefix opt optRotatePrefix then
    { options with Rotate := (strconv.Atoi (strings.TrimPrefix opt optRotatePrefix)).1 }
  else if strings.HasPrefix opt optQualityPrefix then
    { options with Quality := (strconv.Atoi (strings.TrimPrefix opt optQualityPrefix)).1 }
  else if strings.HasPrefix opt optSignaturePrefix then
    { options with Signature := strings.TrimPrefix opt optSignaturePrefix }
  else if strings.HasPrefix opt optCropX then
    { options with CropX := (Float64Ops.parseFloat (strings.TrimPrefix opt optCropX)).1 }
  else if strings.HasPrefix opt optCropY then
    { options with CropY := (Float64Ops.parseFloat (strings.TrimPrefix opt optCropY)).1 }
  else if strings.HasPrefix opt optCropWidth then
    { options with CropWidth := (Float64Ops.parseFloat (strings.TrimPrefix opt optCropWidth)).1 }
  else if strings.HasPrefix opt optCropHeight then
    { options with CropHeight := (Float64Ops.parseFloat (strings.TrimPrefix opt optCropHeight)).1 }
  else if strings.Contains opt optSizeDelimiter then
    -- the token contains the delimiter, so SplitN returns two elements
    let size := strings.SplitN2 opt optSizeDelimiter
    let w := size.getD 0 ""
    let options := if w ≠ "" then { options with Width := (Float64Ops.parseFloat w).1 } else options
    let h := size.getD 1 ""
    let options := if h ≠ "" then { options with Height := (Float64Ops.parseFloat h).1 } else options
    options
  else
    let r : F × Bool := Float64Ops.parseFloat opt
    if r.2 then { options with Width := r.1, Height := r.1 } else options

/-- The function `ParseOptions(str string) Options`. -/
def ParseOptions (str : String) : Options F :=
  (strings.Split str ',').foldl parseOpt emptyOptions

/-- The body of the inner loop of `ParseFormValues` for one `key` and one of
its values; the state is `options` paired with `modeSeen`. -/
def formValue (key value : String) (st : Options F × Bool) : Options F × Bool :=
  if key = "mode" then
    (if value = "fit" then { st.1 with Fit := true }
     else if value = "smartcrop" then { st.1 with SmartCrop := true }
     else st.1, true)
  else if key = "flip" then
    (if value = "v" then { st.1 with FlipVertical := true }
     else if value = "h" then { st.1 with FlipHorizontal := true }
     else st.1, st.2)
  else if key = "format" then
    (if value = optFormatJPEG then { st.1 with Format := optFormatJPEG }
     else if value = optFormatPNG then { st.1 with Format := optFormatPNG }
     else if value = optFormatTIFF then { st.1 with Format := optFormatTIFF }
     else st.1, st.2)
  else if key = "rotate" then ({ st.1 with Rotate := (strconv.Atoi value).1 }, st.2)
  else if key = "quality" then ({ st.1 with Quality := (strconv.Atoi value).1 }, st.2)
  else if key = "signature" then ({ st.1 with Signature := value }, st.2)
  else if key = "crop" then
    let cropValues := strings.Split value ','
    (if cropValues.length = 4 then
      { st.1 with
        CropX := (Float64Ops.parseFloat (cropValues.getD 0 "")).1,
        CropY := (Float64Ops.parseFloat (cropValues.getD 1 "")).1,
        CropWidth := (Float64Ops.parseFloat (cropValues.getD 2 "")).1,
        CropHeight := (Float64Ops.parseFloat (cropValues.getD 3 "")).1 }
     else st.1, st.2)
  else if key = "width" then ({ st.1 with Width := (Float64Ops.parseFloat value).1 }, st.2)
  else if key = "height" then ({ st.1 with Height := (Float64Ops.parseFloat value).1 }, st.2)
  else if key = "size" then
    let r : F × Bool := Float64Ops.parseFloat value
    (if r.2 then { st.1 with Width := r.1, Height := r.1 } else st.1, st.2)
  else st

/-- The two nested `range` loops of `ParseFormValues`.  The form is given as
the sequence of `(key, values)` entries in the order in which the `range` over
the map visits them. -/
def formLoop (form : List (String × List String)) (st : Options F × Bool) : Options F × Bool :=
  form.foldl (fun st kv => kv.2.foldl (fun st value => formValue kv.1 value st) st) st

/-- The function `ParseFormValues(form url.Values, defaultOptions Options) Options`,
for the map `form` visited in the order of the list. -/
def ParseFormValues (form : List (String × List String)) (defaultOptions : Options F) :
    Options F :=
  let st := formLoop form (defaultOptions, false)
  if !st.2 && Float64Ops.gtZero st.1.Width && Float64Ops.gtZero st.1.Height then
    { st.1 with Fit := true }
  else st.1

/-- The errors `NewRequest` returns: a `URLError` with its message and the URL
it reports, the error of `url.Parse`, or the error of `ParseForm`. -/
inductive Error where
  | URLError (Message : String) (URL : Go.URL)
  | parse
  | form
deriving DecidableEq

/-- Per-source configuration: an optional base URL (a nil pointer is `none`)
and the default options. -/
structure SourceConfiguration (F : Type) where
  BaseURL : Option Go.URL
  DefaultOptions : Options F
deriving DecidableEq

/-- Request is an imageproxy request: the URL of the image to proxy, the
transformation to perform and the original HTTP request. -/
structure Request (F : Type) where
  URL : Go.URL
  Options : Options F
  Original : HTTPRequest
deriving DecidableEq

/-- The match of the regular expression `^(https?):` at the start of the
text: the first group and the text after the colon. -/
def matchScheme (s : List Char) : Option (List Char × List Char) :=
  if "https:".data.isPrefixOf s then some ("https".data, s.drop 6)
  else if "http:".data.isPrefixOf s then some ("http".data, s.drop 5)
  else none

/-- The match of `/+([^/])` at the start of the text: at least one slash, the
whole run of slashes, then one character that is not a slash (the second
group), and the text after it. -/
def matchSlashes (t : List Char) : Option (Char × List Char) :=
  match t with
  | '/' :: t' =>
    match t'.dropWhile (fun c => c == '/') with
    | c :: rest => some (c, rest)
    | [] => none
  | _ => none

/-- The call `reCleanedURL.ReplaceAllString(s, "$1://$2")` for
`reCleanedURL = ^(https?):/+([^/])`: the expression is anchored at the start,
so the one possible match is replaced by the first group, `://` and the second
group. -/
def cleanURL (s : String) : String :=
  match matchScheme s.data with
  | none => s
  | some (scheme, t) =>
    match matchSlashes t with
    | none => s
    | some (c, rest) => String.mk (scheme ++ "://".data ++ c :: rest)

/-- The function `parseURL`. -/
def parseURL (lib : URLLib) (s : String) : Option Go.URL :=
  lib.Parse (cleanURL s)

/-- The body of the `range` loop of `bestMatchingConfig` for one entry; the
state is `bestMatchLen`, `bestMatchPrefix`, `bestConfig`. -/
def bestMatchStep (escapedPath : String)
    (st : Int × String × Option (SourceConfiguration F))
    (entry : String × Option (SourceConfiguration F)) :
    Int × String × Option (SourceConfiguration F) :=
  let urlPrefixWithoutTail := strings.TrimRight entry.1 '/'
  if strings.HasPrefix escapedPath urlPrefixWithoutTail then
    let matchLen : Int := (len urlPrefixWithoutTail : Nat)
    if matchLen < st.1 then st else (matchLen, entry.1, entry.2)
  else st

/-- The function `bestMatchingConfig`, for the registry visited in the order of
the list; a nil configuration is `none`. -/
def bestMatchingConfig (lib : URLLib)
    (prefixesToConfigs : List (String × Option (SourceConfiguration F)))
    (originalURL : Go.URL) : String × Option (SourceConfiguration F) :=
  let st := prefixesToConfigs.foldl (bestMatchStep (lib.EscapedPath originalURL))
    (-1, "", none)
  (st.2.1, st.2.2)

/-- The function `buildFinalAbsoluteURL`.  Slicing out of range panics, and so
does `ResolveReference` on the nil URL that a failed `parseURL` returns. -/
def buildFinalAbsoluteURL (lib : URLLib)
    (prefixesToConfigs : List (String × Option (SourceConfiguration F)))
    (originalURL : Go.URL) : Outcome Error Go.URL :=
  match sliceFrom (lib.EscapedPath originalURL) 1 with
  | none => Outcome.panic
  | some path =>
    match bestMatchingConfig lib prefixesToConfigs originalURL with
    | (matchingPrefix, some config) =>
      let urlPrefixWithoutTail := strings.TrimRight matchingPrefix '/'
      match sliceFrom path (len urlPrefixWithoutTail) with
      | none => Outcome.panic
      | some strippedPath =>
        match config.BaseURL, parseURL lib strippedPath with
        | some base, some finalURL => Outcome.ok (lib.ResolveReference base finalURL)
        | some _, none => Outcome.panic
        | none, some finalURL => Outcome.ok finalURL
        | none, none => Outcome.error Error.parse
    | (_, none) =>
      match parseURL lib path with
      | some finalURL => Outcome.ok finalURL
      | none => Outcome.error Error.parse

/-- The function `NewRequest`.  The registry is given twice: in the order the
`range` loop visits it in the call of `bestMatchingConfig` made by
`buildFinalAbsoluteURL`, and in the order of the second call. -/
def NewRequest (lib : URLLib) (r : HTTPRequest)
    (prefixesToConfigs prefixesToConfigs2 : List (String × Option (SourceConfiguration F))) :
    Outcome Error (Request F) :=
  match buildFinalAbsoluteURL lib prefixesToConfigs r.URL with
  | Outcome.panic => Outcome.panic
  | Outcome.error e => Outcome.error e
  | Outcome.ok reqURL =>
    if !reqURL.IsAbs then
      Outcome.error (Error.URLError "must provide absolute remote URL" r.URL)
    else if reqURL.Scheme ≠ "http" ∧ reqURL.Scheme ≠ "https" then
      Outcome.error (Error.URLError "remote URL must have http or https scheme" r.URL)
    else
      let defaultOptions : Options F :=
        match (bestMatchingConfig lib prefixesToConfigs2 r.URL).2 with
        | some config => config.DefaultOptions
        | none => emptyOptions
      match r.Form with
      | none => Outcome.error Error.form
      | some form =>
        Outcome.ok { URL := { reqURL with RawQuery := r.URL.RawQuery },
                     Options := ParseFormValues form defaultOptions,
                     Original := r }

end Imageproxy

namespace Proxy

open Go

/-- Options of package `proxy`. -/
structure Options (F : Type) where
  Width : F
  Height : F
  Fit : Bool
  Rotate : Int
  FlipVertical : Bool
  FlipHorizontal : Bool
deriving DecidableEq

variable {F : Type} [Float64Ops F]

/-- The method `func (o Options) String() string` of package `proxy`. -/
def Options.String (o : Options F) : String :=
  let buf := Float64Ops.fmtV o.Width ++ "x" ++ Float64Ops.fmtV o.Height
  let buf := if o.Fit then buf ++ ",fit" else buf
  let buf := if o.Rotate ≠ 0 then buf ++ (",r" ++ fmtD o.Rotate) else buf
  let buf := if o.FlipVertical then buf ++ ",fv" else buf
  let buf := if o.FlipHorizontal then buf ++ ",fh" else buf
  buf

/-- The body of the loop over `parts[1:]` in `ParseOptions` of package `proxy`. -/
def parsePart (o : Options F) (part : String) : Options F :=
  if part = "fit" then { o with Fit := true }
  else if part = "fv" then { o with FlipVertical := true }
  else if part = "fh" then { o with FlipHorizontal := true }
  else if len part > 2 ∧ strings.HasPrefix part "r" then
    -- part[1:] drops the one-byte character r
    { o with Rotate := (strconv.Atoi (String.mk (part.data.drop 1))).1 }
  else o

/-- The function `ParseOptions(str string) *Options` of package `proxy`. -/
def ParseOptions (str : String) : Options F :=
  let parts := strings.Split str ','
  -- strings.Split never returns an empty slice, so parts[0] exists
  let size := strings.SplitN2 (parts.headD "") 'x'
  let w := size.headD ""
  let h := if size.length > 1 then size.getD 1 "" else w
  let o : Options F :=
    { Width := Float64Ops.zero, Height := Float64Ops.zero, Fit := false, Rotate := 0,
      FlipVertical := false, FlipHorizontal := false }
  let o := if w ≠ "" then { o with Width := (Float64Ops.parseFloat w).1 } else o
  let o := if h ≠ "" then { o with Height := (Float64Ops.parseFloat h).1 } else o
  parts.tail.foldl parsePart o

end Proxy

/-! ## The encoder as the specification words it -/

namespace Imageproxy

open Go

variable {F : Type} [Float64Ops F]

/-- The tokens of the canonical encoding in the stated order, each paired with
the condition under which it is present. -/
def specTokenTable (o : Options F) : List (Bool × String) :=
  [ (true, Float64Ops.fmtV o.Width ++ "x" ++ Float64Ops.fmtV o.Height),
    (o.Fit, "fit"),
    (decide (o.Rotate ≠ 0), "r" ++ fmtD o.Rotate),
    (o.FlipVertical, "fv"),
    (o.FlipHorizontal, "fh"),
    (decide (o.Quality ≠ 0), "q" ++ fmtD o.Quality),
    (decide (o.Signature ≠ ""), "s" ++ o.Signature),
    (o.ScaleUp, "scaleUp"),
    (decide (o.Format ≠ ""), o.Format),
    (!Float64Ops.isZero o.CropX, "cx" ++ Float64Ops.fmtV o.CropX),
    (!Float64Ops.isZero o.CropY, "cy" ++ Float64Ops.fmtV o.CropY),
    (!Float64Ops.isZero o.CropWidth, "cw" ++ Float64Ops.fmtV o.CropWidth),
    (!Float64Ops.isZero o.CropHeight, "ch" ++ Float64Ops.fmtV o.CropHeight),
    (o.SmartCrop, "sc") ]

/-- The tokens that are present, in order. -/
def specTokens (o : Options F) : List String :=
  ((specTokenTable o).filter (fun p => p.1)).map (fun p => p.2)

/-- The query keys that `ParseFormValues` interprets. -/
def optionKeys : List String :=
  ["mode", "flip", "format", "rotate", "quality", "signature", "crop", "width", "height", "size"]

/-- The value `v` of the key `k` is one that `ParseFormValues` assigns: every
value of `rotate`, `quality`, `signature`, `width` and `height`; for `format`
one of `jpeg`, `png`, `tiff`; for `crop` a value of exactly four
comma-separated parts; for `size` a value that `ParseFloat` accepts without
error. -/
def Assigns (F : Type) [Float64Ops F] (k v : String) : Prop :=
  k ∈ ["rotate", "quality", "signature", "width", "height"]
    ∨ (k = "format" ∧ (v = "jpeg" ∨ v = "png" ∨ v = "tiff"))
    ∨ (k = "crop" ∧ (strings.Split v ',').length = 4)
    ∨ (k = "size" ∧ (Float64Ops.parseFloat v : F × Bool).2 = true)

instance (F : Type) [Float64Ops F] (k v : String) : Decidable (Assigns F k v) := by
  unfold Assigns
  infer_instance

/-- The token `t` is an unknown literal of the legacy grammar: it is none of
the literal tokens, starts with none of the prefixes, has no size delimiter,
and `ParseFloat` rejects it. -/
def UnknownLiteral (F : Type) [Float64Ops F] (t : String) : Prop :=
  t ∉ [optFit, optFlipVertical, optFlipHorizontal, optScaleUp, optFormatJPEG, optFormatPNG,
        optFormatTIFF, optSmartCrop]
    ∧ (∀ p ∈ [optRotatePrefix, optQualityPrefix, optSignaturePrefix, optCropX, optCropY,
        optCropWidth, optCropHeight], strings.HasPrefix t p = false)
    ∧ strings.Contains t optSizeDelimiter = false
    ∧ (Float64Ops.parseFloat t : F × Bool).2 = false

instance (F : Type) [Float64Ops F] (t : String) : Decidable (UnknownLiteral F t) := by
  unfold UnknownLiteral
  infer_instance

end Imageproxy

/-! ## Side conditions of the round trips -/

namespace Go

/-- The characters of the `%v` text of a float64: digits, the point, the
exponent mark, the signs and the letters of `NaN` and `Inf`. -/
def floatChars : List Char := "0123456789.e+-InfNa".data

/-- The value `f` is read back from its own text: `%v` prints it as a
non-empty text over `floatChars`, and `ParseFloat` of that text returns `f`.
Go guarantees this for every float64 other than NaN. -/
def ReadsBack {F : Type} [Float64Ops F] (f : F) : Prop :=
  Float64Ops.fmtV f ≠ "" ∧ (∀ c ∈ (Float64Ops.fmtV f).data, c ∈ floatChars)
    ∧ (Float64Ops.parseFloat (Float64Ops.fmtV f)).1 = f

/-- The value `i` is in the range of a 64-bit `int`. -/
def IsInt (i : Int) : Prop := -(2 ^ 63 : Int) ≤ i ∧ i < 2 ^ 63

instance {F : Type} [Float64Ops F] [DecidableEq F] (f : F) : Decidable (ReadsBack f) := by
  unfold ReadsBack
  infer_instance

instance (i : Int) : Decidable (IsInt i) := by
  unfold IsInt
  infer_instance

end Go

namespace Imageproxy

open Go

variable {F : Type} [Float64Ops F]

/-- A float field as the encoder and parser carry it through a token that is
only written when the field is not zero: a value that compares equal to zero
(`0` or `-0`) comes back as `0`. -/
def zeroIfZero (f : F) : F := if Float64Ops.isZero f then Float64Ops.zero else f

/-- The options `o` with every crop field that compares equal to zero set to
`0`; Go's `==` does not distinguish it from `o`. -/
def Options.zeroCrops (o : Options F) : Options F :=
  { o with CropX := zeroIfZero o.CropX, CropY := zeroIfZero o.CropY,
           CropWidth := zeroIfZero o.CropWidth, CropHeight := zeroIfZero o.CropHeight }

/-- The side conditions under which `Options.String` can be read back: the
floats are read back from their text, the ints are in range, the format is one
of the enumerated ones, and the signature has no comma and does not make its
token `s...` one of the literals `sc` and `scaleUp`. -/
structure Options.Readable (o : Options F) : Prop where
  width : ReadsBack o.Width
  height : ReadsBack o.Height
  cropX : ReadsBack o.CropX
  cropY : ReadsBack o.CropY
  cropWidth : ReadsBack o.CropWidth
  cropHeight : ReadsBack o.CropHeight
  rotate : IsInt o.Rotate
  quality : IsInt o.Quality
  format : o.Format = "" ∨ o.Format = "jpeg" ∨ o.Format = "png" ∨ o.Format = "tiff"
  sigComma : ',' ∉ o.Signature.data
  sigC : o.Signature ≠ "c"
  sigCaleUp : o.Signature ≠ "caleUp"

instance [DecidableEq F] (o : Options F) : Decidable o.Readable :=
  decidable_of_iff
    ((ReadsBack o.Width ∧ ReadsBack o.Height ∧ ReadsBack o.CropX ∧ ReadsBack o.CropY
        ∧ ReadsBack o.CropWidth ∧ ReadsBack o.CropHeight)
      ∧ (IsInt o.Rotate ∧ IsInt o.Quality)
      ∧ (o.Format = "" ∨ o.Format = "jpeg" ∨ o.Format = "png" ∨ o.Format = "tiff")
      ∧ (',' ∉ o.Signature.data ∧ o.Signature ≠ "c" ∧ o.Signature ≠ "caleUp"))
    ⟨fun h => ⟨h.1.1, h.1.2.1, h.1.2.2.1, h.1.2.2.2.1, h.1.2.2.2.2.1, h.1.2.2.2.2.2,
        h.2.1.1, h.2.1.2, h.2.2.1, h.2.2.2.1, h.2.2.2.2.1, h.2.2.2.2.2⟩,
      fun h => ⟨⟨h.width, h.height, h.cropX, h.cropY, h.cropWidth, h.cropHeight⟩,
        ⟨h.rotate, h.quality⟩, h.format, h.sigComma, h.sigC, h.sigCaleUp⟩⟩

end Imageproxy

/-! ## Concrete inputs

The inputs at which the statements below are evaluated, over the binary64
instance. -/

namespace Go

/-- The float64 that `ParseFloat` returns for the literal `s`. -/
def f64 (s : String) : Float64 := (Float64.parse s).1

end Go

namespace Imageproxy

open Go

/-- The fifth row of the table of `TestOptions_String`. -/
def testOptions : Options Float64 :=
  { Width := f64 "0.15", Height := f64 "1.3", Fit := false, Rotate := 45,
    FlipVertical := false, FlipHorizontal := false, Quality := 95, Signature := "c0ffee",
    ScaleUp := false, Format := "png",
    CropX := f64 "100", CropY := f64 "200", CropWidth := f64 "300", CropHeight := f64 "400",
    SmartCrop := false }

/-- Width 1 and a crop x of negative zero, everything else zero. -/
def negZeroCropOptions : Options Float64 :=
  { (emptyOptions : Options Float64) with Width := f64 "1", CropX := f64 "-0" }

/-- Width 1, everything else zero. -/
def widthOneOptions : Options Float64 :=
  { (emptyOptions : Options Float64) with Width := f64 "1" }

/-- The signature `c`, everything else zero. -/
def sigCOptions : Options Float64 :=
  { (emptyOptions : Options Float64) with Signature := "c" }

/-- The signature `caleUp`, everything else zero. -/
def sigCaleUpOptions : Options Float64 :=
  { (emptyOptions : Options Float64) with Signature := "caleUp" }

/-- Only `ScaleUp` set. -/
def scaleUpOptions : Options Float64 :=
  { (emptyOptions : Options Float64) with ScaleUp := true }

/-- Default options with width 1 and height 1, everything else zero. -/
def oneByOneDefaults : Options Float64 :=
  { (emptyOptions : Options Float64) with Width := f64 "1", Height := f64 "1" }

/-- The query `FOO=BAR&size=1&BAR=foo&rotate=90&BAZ=DAS` of `TestParseFormValues`,
visited in the order written. -/
def mixedForm : List (String × List String) :=
  [("FOO", ["BAR"]), ("size", ["1"]), ("BAR", ["foo"]), ("rotate", ["90"]), ("BAZ", ["DAS"])]

/-- The query `mode=smartcrop&width=1&height=2`, visited in the order written. -/
def smartcropForm : List (String × List String) :=
  [("mode", ["smartcrop"]), ("width", ["1"]), ("height", ["2"])]

end Imageproxy

namespace Proxy

open Go

/-- The options `1x2,fit,r90,fv,fh` of package `proxy`. -/
def testOptions : Options Float64 :=
  { Width := f64 "1", Height := f64 "2", Fit := true, Rotate := 90,
    FlipVertical := true, FlipHorizontal := true }

/-- A rotation by a single digit, everything else zero. -/
def rotateFiveOptions : Options Float64 :=
  { Width := Float64Ops.zero, Height := Float64Ops.zero, Fit := false, Rotate := 5,
    FlipVertical := false, FlipHorizontal := false }

end Proxy

namespace Imageproxy

open Go

/-- The URL of an inbound request with the given escaped path and raw query. -/
def inboundURL (path rawQuery : String) : URL :=
  { Scheme := "", Opaque := "", User := none, Host := "", Path := path, ForceQuery := false,
    RawQuery := rawQuery, Fragment := "" }

/-- A source configuration without base URL and with zero default options. -/
def plainConfig : SourceConfiguration Float64 :=
  { BaseURL := none, DefaultOptions := emptyOptions }

/-- A source configuration without base URL and with a default width of 1. -/
def widthOneConfig : SourceConfiguration Float64 :=
  { BaseURL := none, DefaultOptions := widthOneOptions }

/-- The registry with the prefixes `/a/` and `/a/b/`. -/
def nestedRegistry : List (String × Option (SourceConfiguration Float64)) :=
  [("/a/", some plainConfig), ("/a/b/", some widthOneConfig)]

/-- The registry with the prefixes `/a` and `/a/`, which have the same trimmed
form, visited in that order. -/
def tiedRegistry : List (String × Option (SourceConfiguration Float64)) :=
  [("/a", some plainConfig), ("/a/", some widthOneConfig)]

/-- The registry with the prefixes `/a`, `/a/` and `/a/b`: the first two have
the same trimmed form, the third is longer. -/
def tiedBelowRegistry : List (String × Option (SourceConfiguration Float64)) :=
  [("/a", some plainConfig), ("/a/", some widthOneConfig), ("/a/b", some plainConfig)]

end Imageproxy

namespace Imageproxy

open Go

/-- The text that `buildFinalAbsoluteURL` hands to `parseURL`: `strippedPath`
when a configuration matches and `path` otherwise; `none` when a slice
expression panics before the call. -/
def parseURLArgument {F : Type} (lib : URLLib)
    (prefixesToConfigs : List (String × Option (SourceConfiguration F)))
    (originalURL : Go.URL) : Option String :=
  match sliceFrom (lib.EscapedPath originalURL) 1 with
  | none => none
  | some path =>
    match bestMatchingConfig lib prefixesToConfigs originalURL with
    | (matchingPrefix, some _) => sliceFrom path (len (strings.TrimRight matchingPrefix '/'))
    | (_, none) => some path

/-- The inbound request `GET /100x200/http://example.com/image.jpg`, without
query. -/
def legacyRequest : HTTPRequest :=
  { URL := inboundURL "/100x200/http://example.com/image.jpg" "", Form := some [] }

/-- The inbound request `GET /1x2/http://example.com/foo`, without query. -/
def legacyTestRequest : HTTPRequest :=
  { URL := inboundURL "/1x2/http://example.com/foo" "", Form := some [] }

/-- The inbound request `GET /http://example.com/foo?bar=1&rotate=90`. -/
def passThroughRequest : HTTPRequest :=
  { URL := inboundURL "/http://example.com/foo" "bar=1&rotate=90",
    Form := some [("bar", ["1"]), ("rotate", ["90"])] }

/-- The inbound request `GET /`. -/
def rootRequest : HTTPRequest :=
  { URL := inboundURL "/" "", Form := some [] }

/-- The inbound request `GET /example.com/foo`. -/
def schemelessRequest : HTTPRequest :=
  { URL := inboundURL "/example.com/foo" "", Form := some [] }

/-- The inbound request `GET /ftp://example.com/foo`. -/
def ftpRequest : HTTPRequest :=
  { URL := inboundURL "/ftp://example.com/foo" "", Form := some [] }

end Imageproxy

namespace Imageproxy

open Go

/-- The request of imageproxy for `passThroughRequest`: the remote URL
`http://example.com/foo?bar=1&rotate=90` and a rotation of 90 degrees. -/
def passThroughResult : Request Float64 :=
  { URL := { Scheme := "http", Opaque := "", User := none, Host := "example.com",
             Path := "/foo", ForceQuery := false, RawQuery := "bar=1&rotate=90",
             Fragment := "" },
    Options := { (emptyOptions : Options Float64) with Rotate := 90 },
    Original := passThroughRequest }

/-- The URL `ftp://example.com/foo`. -/
def ftpURL : URL :=
  { Scheme := "ftp", Opaque := "", User := none, Host := "example.com", Path := "/foo",
    ForceQuery := false, RawQuery := "", Fragment := "" }

/-- The registry without entries. -/
def emptyRegistry : List (String × Option (SourceConfiguration Float64)) := []

end Imageproxy

namespace Imageproxy

open Go

/-- Default options with every boolean flag set. -/
def allFlagsOptions : Options Float64 :=
  { (emptyOptions : Options Float64) with
    Fit := true, FlipVertical := true, FlipHorizontal := true, ScaleUp := true,
    SmartCrop := true }

/-- The form of the query `mode=crop&flip=none&fit=false&scaleUp=false&width=0`. -/
def clearingForm : List (String × List String) :=
  [("mode", ["crop"]), ("flip", ["none"]), ("fit", ["false"]), ("scaleUp", ["false"]),
    ("width", ["0"])]

end Imageproxy

namespace Go

/-- The functions of package `net/url` on queries that the code calls:
`url.ParseQuery` (`none` when it returns an error; the code does not read the
values returned beside an error) and the method `Encode` of `url.Values`.  A
`url.Values` map is given as the list of its entries. -/
structure QueryLib where
  ParseQuery : String → Option (List (String × List String))
  Encode : List (String × List String) → String

/-- The map read `m[key]`: the value of the key, nil when the key is absent. -/
def mapGet : List (String × List String) → String → List String
  | [], _ => []
  | kv :: rest, key => if kv.1 = key then kv.2 else mapGet rest key

/-- The map write `m[key] = value`: the entry of the key is replaced, or a new
entry is added. -/
def mapSet : List (String × List String) → String → List String → List (String × List String)
  | [], key, value => [(key, value)]
  | kv :: rest, key, value =>
    if kv.1 = key then (key, value) :: rest else kv :: mapSet rest key value

namespace url

/-- The value of a hexadecimal digit (`ishex` and `unhex`). -/
def hexVal (c : Char) : Option Nat :=
  if '0'.toNat ≤ c.toNat ∧ c.toNat ≤ '9'.toNat then some (c.toNat - '0'.toNat)
  else if 'a'.toNat ≤ c.toNat ∧ c.toNat ≤ 'f'.toNat then some (c.toNat - 'a'.toNat + 10)
  else if 'A'.toNat ≤ c.toNat ∧ c.toNat ≤ 'F'.toNat then some (c.toNat - 'A'.toNat + 10)
  else none

/-- The function `QueryUnescape` on the characters of a text: `%XX` becomes the
byte `XX`, `+` becomes a space, and `none` is the error for a `%` that is not
followed by two hexadecimal digits.  This instance reads texts of ASCII
content: an escape of a byte above 7F, which Go decodes to one byte of a
multi-byte character, is reported as an error. -/
def unescapeChars : List Char → Option (List Char)
  | [] => some []
  | '%' :: a :: b :: rest =>
    match hexVal a, hexVal b with
    | some x, some y =>
      if 16 * x + y < 128 then (unescapeChars rest).map (fun l => Char.ofNat (16 * x + y) :: l)
      else none
    | _, _ => none
  | '%' :: _ => none
  | '+' :: rest => (unescapeChars rest).map (fun l => ' ' :: l)
  | c :: rest => (unescapeChars rest).map (fun l => c :: l)

/-- The bytes of the UTF-8 encoding of a character. -/
def utf8Bytes (c : Char) : List Nat :=
  if c.toNat < 128 then [c.toNat]
  else if c.toNat < 2048 then [192 + c.toNat / 64, 128 + c.toNat % 64]
  else if c.toNat < 65536 then
    [224 + c.toNat / 4096, 128 + c.toNat / 64 % 64, 128 + c.toNat % 64]
  else
    [240 + c.toNat / 262144, 128 + c.toNat / 4096 % 64, 128 + c.toNat / 64 % 64,
      128 + c.toNat % 64]

/-- The upper-case hexadecimal digit of a value below 16. -/
def hexDigit (n : Nat) : Char := "0123456789ABCDEF".data.getD n '0'

/-- The function `shouldEscape` in the mode of a query component: letters,
digits and `-`, `_`, `.`, `~` are kept. -/
def shouldEscape (c : Char) : Bool :=
  !(c.isAlphanum || c == '-' || c == '_' || c == '.' || c == '~')

/-- The escaped form of one character in `QueryEscape`. -/
def escapeChar (c : Char) : List Char :=
  if !shouldEscape c then [c]
  else if c = ' ' then ['+']
  else (utf8Bytes c).flatMap (fun b => ['%', hexDigit (b / 16), hexDigit (b % 16)])

/-- The function `QueryEscape` on the characters of a text. -/
def escapeChars (s : List Char) : List Char := s.flatMap escapeChar

/-- The body of the loop of `parseQuery` for one `&`-separated part; the state
is the map and whether the error is still nil.  A part with a semicolon is an
error, as in Go 1.17 and later; an empty part is skipped; a part whose key or
value does not unescape is an error. -/
def parseQueryStep (st : List (String × List String) × Bool) (part : List Char) :
    List (String × List String) × Bool :=
  if ';' ∈ part then (st.1, false)
  else if part = [] then st
  else
    match unescapeChars (cut '=' part).1 with
    | none => (st.1, false)
    | some key =>
      match unescapeChars (cut '=' part).2 with
      | none => (st.1, false)
      | some value =>
        (mapSet st.1 (String.mk key) (mapGet st.1 (String.mk key) ++ [String.mk value]), st.2)

/-- The function `url.ParseQuery`, `none` when it returns an error. -/
def ParseQuery (query : String) : Option (List (String × List String)) :=
  let st := (splitChars '&' query.data).foldl parseQueryStep ([], true)
  if st.2 then some st.1 else none

/-- The order of Go strings, byte by byte. -/
def leChars : List Char → List Char → Bool
  | [], _ => true
  | _ :: _, [] => false
  | a :: s, b :: t =>
    if a.toNat < b.toNat then true else if b.toNat < a.toNat then false else leChars s t

/-- Insertion of an entry into a list of entries sorted by key. -/
def insertEntry (kv : String × List String) :
    List (String × List String) → List (String × List String)
  | [] => [kv]
  | x :: rest =>
    if leChars kv.1.data x.1.data then kv :: x :: rest else x :: insertEntry kv rest

/-- The method `Encode` of `url.Values`: the entries sorted by key, each value
written as `key=value` in escaped form, joined by `&`. -/
def Encode (v : List (String × List String)) : String :=
  String.mk (joinChars ['&']
    ((v.foldr insertEntry []).flatMap (fun kv =>
      kv.2.map (fun value => escapeChars kv.1.data ++ '=' :: escapeChars value.data))))

end url

/-- The instance of the query functions at which concrete queries are
evaluated. -/
def netQuery : QueryLib :=
  { ParseQuery := url.ParseQuery, Encode := url.Encode }

end Go

namespace Imageproxy

open Go

/-- The body of the `range` loop of `StripOurOptions` for one key of
`values`. -/
def stripKey (values newValues : List (String × List String)) (key : String) :
    List (String × List String) :=
  if key = "mode" then newValues
  else if key = "flip" then newValues
  else if key = "format" then newValues
  else if key = "rotate" then newValues
  else if key = "quality" then newValues
  else if key = "signature" then newValues
  else if key = "crop" then newValues
  else if key = "width" then newValues
  else if key = "height" then newValues
  else if key = "size" then newValues
  else mapSet newValues key (mapGet values key)

/-- The map `newValues` that `StripOurOptions` builds from `values`, the keys
visited in the order of the list. -/
def strippedValues (values : List (String × List String)) : List (String × List String) :=
  (values.map Prod.fst).foldl (stripKey values) []

/-- The function `StripOurOptions`; `none` is the return with an error. -/
def StripOurOptions (lib : QueryLib) (rawQuery : String) : Option String :=
  match lib.ParseQuery rawQuery with
  | none => none
  | some values => some (lib.Encode (strippedValues values))

/-- The encoded form of the map `v` reads back: `url.ParseQuery` accepts it and
returns the entries of `v`, in some order. -/
def ReadsBackValues (lib : QueryLib) (v : List (String × List String)) : Prop :=
  match lib.ParseQuery (lib.Encode v) with
  | some out => out.Perm v
  | none => False

instance (lib : QueryLib) (v : List (String × List String)) :
    Decidable (ReadsBackValues lib v) := by
  unfold ReadsBackValues
  split <;> infer_instance

/-- The raw query `width=100&foo=1&mode=fit&foo=2&bar=a%20b&Size=3`. -/
def mixedQuery : String := "width=100&foo=1&mode=fit&foo=2&bar=a%20b&Size=3"

end Imageproxy

namespace Imageproxy

open Go

/-- The registry with the one prefix `/prefix/`. -/
def prefixRegistry : List (String × Option (SourceConfiguration Float64)) :=
  [("/prefix/", some plainConfig)]

/-- The inbound request `GET /prefix`. -/
def prefixOnlyRequest : HTTPRequest :=
  { URL := inboundURL "/prefix" "", Form := some [] }

/-- An inbound request whose URL has the empty path, as for the request line
`GET http://localhost HTTP/1.1`. -/
def emptyPathRequest : HTTPRequest :=
  { URL := inboundURL "" "", Form := some [] }

end Imageproxy

/-! ## Lemmas on the library model -/

namespace Go

theorem intercalate_go_data (sep : String) (l : List String) (acc : String) :
    (String.intercalate.go acc sep l).data
      = acc.data ++ (l.map (fun a => sep.data ++ a.data)).flatten := by
  induction l generalizing acc with
  | nil => simp [String.intercalate.go]
  | cons a l ih => simp [String.intercalate.go, ih, String.data_append]

theorem joinChars_cons (sep : List Char) (a : List Char) (l : List (List Char)) :
    joinChars sep (a :: l) = a ++ (l.map (fun b => sep ++ b)).flatten := by
  induction l generalizing a with
  | nil => simp [joinChars]
  | cons b l ih => simp [joinChars, ih]

/-- The model of `strings.Join` is the library join of Lean strings. -/
theorem Join_eq_intercalate (elems : List String) (sep : String) :
    strings.Join elems sep = String.intercalate sep elems := by
  apply String.ext
  cases elems with
  | nil => simp [strings.Join, joinChars, String.intercalate]
  | cons a l =>
    simp [strings.Join, String.intercalate, intercalate_go_data, joinChars_cons,
      List.map_map, Function.comp_def]

theorem ite_append_singleton {α : Type} (c : Prop) [Decidable c] (l : List α) (t : α) :
    (if c then l ++ [t] else l) = l ++ (if c then [t] else []) := by
  split <;> simp

theorem filter_cons_append {α : Type} (p : α → Bool) (a : α) (l : List α) :
    (a :: l).filter p = (if p a then [a] else []) ++ l.filter p := by
  by_cases h : p a <;> simp [List.filter_cons, h]

theorem splitChars_ne_nil (sep : Char) (l : List Char) : splitChars sep l ≠ [] := by
  induction l with
  | nil => simp [splitChars]
  | cons c cs ih =>
    unfold splitChars
    split
    · simp
    · split <;> simp

theorem splitChars_nosep (sep : Char) (t : List Char) (h : sep ∉ t) :
    splitChars sep t = [t] := by
  induction t with
  | nil => simp [splitChars]
  | cons c cs ih =>
    have hc : c ≠ sep := fun e => h (by simp [e])
    have hcs : sep ∉ cs := fun m => h (List.mem_cons_of_mem _ m)
    simp [splitChars, hc, ih hcs]

theorem splitChars_append_sep (sep : Char) (t rest : List Char) (h : sep ∉ t) :
    splitChars sep (t ++ sep :: rest) = t :: splitChars sep rest := by
  induction t with
  | nil => simp [splitChars]
  | cons c cs ih =>
    have hc : c ≠ sep := fun e => h (by simp [e])
    have hcs : sep ∉ cs := fun m => h (List.mem_cons_of_mem _ m)
    simp [splitChars, hc, ih hcs]

theorem splitChars_joinChars (sep : Char) (ts : List (List Char)) (hne : ts ≠ [])
    (h : ∀ t ∈ ts, sep ∉ t) : splitChars sep (joinChars [sep] ts) = ts := by
  induction ts with
  | nil => exact absurd rfl hne
  | cons a l ih =>
    cases l with
    | nil => simpa [joinChars] using splitChars_nosep sep a (h a (by simp))
    | cons b rest =>
      have ha : sep ∉ a := h a (by simp)
      have hrest : ∀ t ∈ b :: rest, sep ∉ t := fun t ht => h t (List.mem_cons_of_mem _ ht)
      have := ih (by simp) hrest
      simp only [joinChars, List.append_assoc, List.singleton_append]
      rw [splitChars_append_sep sep a _ ha, this]

/-- Splitting a comma-join of comma-free tokens gives the tokens back. -/
theorem Split_Join (ts : List String) (hne : ts ≠ [])
    (h : ∀ t ∈ ts, ',' ∉ t.data) : strings.Split (strings.Join ts ",") ',' = ts := by
  have hd : (",".data : List Char) = [','] := rfl
  unfold strings.Split strings.Join
  rw [hd, splitChars_joinChars ',' (ts.map String.data) (by simpa using hne)
    (by simpa using h)]
  simp [List.map_map, Function.comp_def]

theorem takeWhile_ne_append (sep : Char) (w h : List Char) (hw : sep ∉ w) :
    (w ++ sep :: h).takeWhile (fun c => c != sep) = w := by
  induction w with
  | nil => simp [List.takeWhile]
  | cons c cs ih =>
    have hc : c ≠ sep := fun e => hw (by simp [e])
    have hcs : sep ∉ cs := fun m => hw (List.mem_cons_of_mem _ m)
    have hb : (c != sep) = true := by simp [hc]
    simp [List.takeWhile_cons, hb, ih hcs]

theorem dropWhile_ne_append (sep : Char) (w h : List Char) (hw : sep ∉ w) :
    (w ++ sep :: h).dropWhile (fun c => c != sep) = sep :: h := by
  induction w with
  | nil => simp [List.dropWhile]
  | cons c cs ih =>
    have hc : c ≠ sep := fun e => hw (by simp [e])
    have hcs : sep ∉ cs := fun m => hw (List.mem_cons_of_mem _ m)
    have hb : (c != sep) = true := by simp [hc]
    simp [List.dropWhile_cons, hb, ih hcs]

/-- Cutting `w ++ sep ++ h` at the first `sep` gives `w` and `h` when `w` has
no `sep`. -/
theorem SplitN2_append (sep : Char) (w h : String) (hw : sep ∉ w.data) :
    strings.SplitN2 (w ++ String.singleton sep ++ h) sep = [w, h] := by
  have hd : (w ++ String.singleton sep ++ h).data = w.data ++ sep :: h.data := by
    simp [String.data_append, String.singleton]
  unfold strings.SplitN2
  rw [hd, if_pos (by simp), takeWhile_ne_append sep _ _ hw, dropWhile_ne_append sep _ _ hw]
  rfl

theorem digitChar_spec : ∀ d, d < 10 →
    (Nat.digitChar d).isDigit = true ∧ (Nat.digitChar d).toNat - 48 = d
      ∧ (Nat.digitChar d).utf8Size = 1 := by
  decide

theorem digitsVal_natDigitsAux (fuel n : Nat) (acc : List Char) (h : n < fuel) :
    digitsVal 0 (natDigitsAux fuel n acc) = digitsVal n acc := by
  induction fuel generalizing n acc with
  | zero => omega
  | succ fuel ih =>
    obtain ⟨hd, hv, _⟩ := digitChar_spec (n % 10) (Nat.mod_lt _ (by omega))
    unfold natDigitsAux
    split
    · rename_i h0
      have : n % 10 = n := by omega
      rw [this] at hd hv
      simp [digitsVal, hd, hv, this]
    · rename_i h0
      rw [ih (n / 10) _ (by omega)]
      have : n / 10 * 10 + n % 10 = n := by omega
      simp [digitsVal, hd, hv, this]

theorem digitsVal_natDigits (n : Nat) : digitsVal 0 (natDigits n) = some n := by
  simp [natDigits, digitsVal_natDigitsAux, digitsVal]

theorem digitsVal_le (acc : Nat) (cs : List Char) (n : Nat) (h : digitsVal acc cs = some n) :
    acc ≤ n := by
  induction cs generalizing acc with
  | nil =>
    simp only [digitsVal, Option.some.injEq] at h
    omega
  | cons c cs ih =>
    unfold digitsVal at h
    by_cases hd : c.isDigit = true
    · rw [if_pos hd] at h
      have := ih _ h
      omega
    · rw [if_neg hd] at h
      exact absurd h (by simp)

/-- On a run of digits whose value fits 64 bits, `ParseUint` returns the
value. -/
theorem parseUintLoop_of_digitsVal (acc : Nat) (cs : List Char) (n : Nat)
    (h : digitsVal acc cs = some n) (hn : n < 2 ^ 64) :
    strconv.parseUintLoop acc cs = some (n, true) := by
  induction cs generalizing acc with
  | nil =>
    simp only [digitsVal, Option.some.injEq] at h
    rw [← h]
    rfl
  | cons c cs ih =>
    unfold digitsVal at h
    by_cases hd : c.isDigit = true
    · rw [if_pos hd] at h
      have hle := digitsVal_le _ _ _ h
      unfold strconv.parseUintLoop
      rw [if_pos hd, if_neg (by omega), if_neg (by omega)]
      exact ih _ h
    · rw [if_neg hd] at h
      exact absurd h (by simp)

theorem natDigitsAux_digits (fuel n : Nat) (acc : List Char)
    (hacc : ∀ c ∈ acc, c.isDigit = true) : ∀ c ∈ natDigitsAux fuel n acc, c.isDigit = true := by
  induction fuel generalizing n acc with
  | zero => simpa [natDigitsAux] using hacc
  | succ fuel ih =>
    obtain ⟨hd, _, _⟩ := digitChar_spec (n % 10) (Nat.mod_lt _ (by omega))
    have hacc2 : ∀ c ∈ Nat.digitChar (n % 10) :: acc, c.isDigit = true := by
      intro c hc
      rcases List.mem_cons.1 hc with h | h
      · rw [h]; exact hd
      · exact hacc c h
    unfold natDigitsAux
    split
    · exact hacc2
    · exact ih _ _ hacc2

theorem natDigits_digits (n : Nat) : ∀ c ∈ natDigits n, c.isDigit = true :=
  natDigitsAux_digits _ _ _ (by simp)

theorem natDigitsAux_ne_nil (fuel n : Nat) (acc : List Char) (h : 0 < fuel ∨ acc ≠ []) :
    natDigitsAux fuel n acc ≠ [] := by
  induction fuel generalizing n acc with
  | zero =>
    rcases h with h | h
    · omega
    · simpa [natDigitsAux] using h
  | succ fuel ih =>
    unfold natDigitsAux
    split
    · simp
    · exact ih _ _ (Or.inr (by simp))

theorem natDigits_ne_nil (n : Nat) : natDigits n ≠ [] :=
  natDigitsAux_ne_nil _ _ _ (Or.inl (by omega))

theorem natDigits_head (n : Nat) : ∃ c cs, natDigits n = c :: cs ∧ c.isDigit = true := by
  have h := natDigits_ne_nil n
  have hd := natDigits_digits n
  cases hl : natDigits n with
  | nil => exact absurd hl h
  | cons c cs => exact ⟨c, cs, rfl, hd c (by simp [hl])⟩

theorem splitSign_of_ne (c : Char) (cs : List Char) (hm : c ≠ '-') (hp : c ≠ '+') :
    splitSign (c :: cs) = (false, c :: cs) := by
  unfold splitSign
  split
  · rename_i heq; simp at heq; exact absurd heq.1 hm
  · rename_i heq; simp at heq; exact absurd heq.1 hp
  · rfl

/-- The range error of `Atoi` is found inside the digit loop: twenty digits
overflow before the bad character is read, while after nineteen digits the bad
character is a syntax error. -/
theorem Atoi_overflow_before_bad_character :
    strconv.Atoi "99999999999999999999a" = (9223372036854775807, false)
      ∧ strconv.Atoi "9999999999999999999a" = (0, false)
      ∧ strconv.Atoi "-99999999999999999999a" = (-9223372036854775808, false)
      ∧ strconv.Atoi "9223372036854775808" = (9223372036854775807, false)
      ∧ strconv.Atoi "-9223372036854775808" = (-9223372036854775808, true) := by
  decide

/-- Reading back a printed integer of the `int` range gives the integer. -/
theorem Atoi_fmtD (i : Int) (hlo : -(2 ^ 63 : Int) ≤ i) (hhi : i < 2 ^ 63) :
    strconv.Atoi (fmtD i) = (i, true) := by
  obtain ⟨c, cs, hcs, hc⟩ := natDigits_head i.natAbs
  have hval := parseUintLoop_of_digitsVal 0 _ _ (digitsVal_natDigits i.natAbs) (by omega)
  have hm : c ≠ '-' := by rintro rfl; simp at hc
  have hp : c ≠ '+' := by rintro rfl; simp at hc
  by_cases hneg : i < 0
  · have hle : ¬ ((2 : Nat) ^ 63 < i.natAbs) := by omega
    have hi : -((i.natAbs : Nat) : Int) = i := by omega
    simp only [strconv.Atoi, fmtD, hneg, if_true, splitSign]
    rw [if_neg (natDigits_ne_nil _), hval]
    simp only [if_true]
    rw [if_neg hle, hi]
  · have hlt : ¬ ((2 : Nat) ^ 63 ≤ i.natAbs) := by omega
    have hi : ((i.natAbs : Nat) : Int) = i := by omega
    simp only [strconv.Atoi, fmtD, hneg, if_false, hcs, splitSign_of_ne c cs hm hp]
    rw [← hcs, if_neg (natDigits_ne_nil _), hval]
    simp only [Bool.false_eq_true, if_false]
    rw [if_neg hlt, hi]

end Go

namespace Imageproxy

open Go

variable {F : Type} [Float64Ops F]

theorem optsSlice_eq (o : Options F) : o.optsSlice = specTokens o := by
  simp only [Options.optsSlice, ite_append_singleton]
  simp only [specTokens, specTokenTable, filter_cons_append, List.filter_nil, List.map_append,
    apply_ite (List.map _), List.map_cons, List.map_nil, List.append_nil, List.append_assoc]
  simp [optFit, optRotatePrefix, optFlipVertical, optFlipHorizontal, optQualityPrefix,
    optSignaturePrefix, optScaleUp, optCropX, optCropY, optCropWidth, optCropHeight,
    optSmartCrop, optSizeDelimiter]
  rfl

theorem len_eq_zero_iff (s : String) : len s = 0 ↔ s.data = [] := by
  cases s with
  | mk l => simp [len]

@[simp] theorem data_optFit : optFit.data = ['f', 'i', 't'] := rfl
@[simp] theorem data_optFlipVertical : optFlipVertical.data = ['f', 'v'] := rfl
@[simp] theorem data_optFlipHorizontal : optFlipHorizontal.data = ['f', 'h'] := rfl
@[simp] theorem data_optFormatJPEG : optFormatJPEG.data = ['j', 'p', 'e', 'g'] := rfl
@[simp] theorem data_optFormatPNG : optFormatPNG.data = ['p', 'n', 'g'] := rfl
@[simp] theorem data_optFormatTIFF : optFormatTIFF.data = ['t', 'i', 'f', 'f'] := rfl
@[simp] theorem data_optRotatePrefix : optRotatePrefix.data = ['r'] := rfl
@[simp] theorem data_optQualityPrefix : optQualityPrefix.data = ['q'] := rfl
@[simp] theorem data_optSignaturePrefix : optSignaturePrefix.data = ['s'] := rfl
@[simp] theorem data_optScaleUp : optScaleUp.data = ['s', 'c', 'a', 'l', 'e', 'U', 'p'] := rfl
@[simp] theorem data_optCropX : optCropX.data = ['c', 'x'] := rfl
@[simp] theorem data_optCropY : optCropY.data = ['c', 'y'] := rfl
@[simp] theorem data_optCropWidth : optCropWidth.data = ['c', 'w'] := rfl
@[simp] theorem data_optCropHeight : optCropHeight.data = ['c', 'h'] := rfl
@[simp] theorem data_optSmartCrop : optSmartCrop.data = ['s', 'c'] := rfl

theorem parseOpt_fit (acc : Options F) : parseOpt acc "fit" = { acc with Fit := true } := by
  simp [parseOpt, len_eq_zero_iff, String.ext_iff]

theorem parseOpt_fv (acc : Options F) : parseOpt acc "fv" = { acc with FlipVertical := true } := by
  simp [parseOpt, len_eq_zero_iff, String.ext_iff]

theorem parseOpt_fh (acc : Options F) :
    parseOpt acc "fh" = { acc with FlipHorizontal := true } := by
  simp [parseOpt, len_eq_zero_iff, String.ext_iff]

theorem parseOpt_scaleUp (acc : Options F) :
    parseOpt acc "scaleUp" = { acc with ScaleUp := true } := by
  simp [parseOpt, len_eq_zero_iff, String.ext_iff]

theorem parseOpt_sc (acc : Options F) : parseOpt acc "sc" = { acc with SmartCrop := true } := by
  simp [parseOpt, len_eq_zero_iff, String.ext_iff]

theorem parseOpt_format (acc : Options F) (f : String)
    (hf : f = "jpeg" ∨ f = "png" ∨ f = "tiff") : parseOpt acc f = { acc with Format := f } := by
  rcases hf with rfl | rfl | rfl <;> simp [parseOpt, len_eq_zero_iff, String.ext_iff]

theorem parseOpt_rotate (acc : Options F) (i : Int) (hi : IsInt i) :
    parseOpt acc ("r" ++ fmtD i) = { acc with Rotate := i } := by
  have hd : ("r" ++ fmtD i).data = 'r' :: (fmtD i).data := rfl
  simp [parseOpt, len_eq_zero_iff, String.ext_iff, strings.HasPrefix, strings.TrimPrefix, hd,
    Atoi_fmtD i hi.1 hi.2]

theorem parseOpt_quality (acc : Options F) (i : Int) (hi : IsInt i) :
    parseOpt acc ("q" ++ fmtD i) = { acc with Quality := i } := by
  have hd : ("q" ++ fmtD i).data = 'q' :: (fmtD i).data := rfl
  simp [parseOpt, len_eq_zero_iff, String.ext_iff, strings.HasPrefix, strings.TrimPrefix, hd,
    Atoi_fmtD i hi.1 hi.2]

theorem parseOpt_signature (acc : Options F) (sig : String)
    (h1 : sig ≠ "c") (h2 : sig ≠ "caleUp") :
    parseOpt acc ("s" ++ sig) = { acc with Signature := sig } := by
  have hd : ("s" ++ sig).data = 's' :: sig.data := rfl
  have h1d : sig.data ≠ ['c'] := fun h => h1 (String.ext h)
  have h2d : sig.data ≠ ['c', 'a', 'l', 'e', 'U', 'p'] := fun h => h2 (String.ext h)
  simp [parseOpt, len_eq_zero_iff, String.ext_iff, strings.HasPrefix, strings.TrimPrefix, hd,
    h1d, h2d]

theorem parseOpt_cx (acc : Options F) (t : String) :
    parseOpt acc ("cx" ++ t) = { acc with CropX := (Float64Ops.parseFloat t).1 } := by
  have hd : ("cx" ++ t).data = 'c' :: 'x' :: t.data := rfl
  simp [parseOpt, len_eq_zero_iff, String.ext_iff, strings.HasPrefix, strings.TrimPrefix, hd]

theorem parseOpt_cy (acc : Options F) (t : String) :
    parseOpt acc ("cy" ++ t) = { acc with CropY := (Float64Ops.parseFloat t).1 } := by
  have hd : ("cy" ++ t).data = 'c' :: 'y' :: t.data := rfl
  simp [parseOpt, len_eq_zero_iff, String.ext_iff, strings.HasPrefix, strings.TrimPrefix, hd]

theorem parseOpt_cw (acc : Options F) (t : String) :
    parseOpt acc ("cw" ++ t) = { acc with CropWidth := (Float64Ops.parseFloat t).1 } := by
  have hd : ("cw" ++ t).data = 'c' :: 'w' :: t.data := rfl
  simp [parseOpt, len_eq_zero_iff, String.ext_iff, strings.HasPrefix, strings.TrimPrefix, hd]

theorem parseOpt_ch (acc : Options F) (t : String) :
    parseOpt acc ("ch" ++ t) = { acc with CropHeight := (Float64Ops.parseFloat t).1 } := by
  have hd : ("ch" ++ t).data = 'c' :: 'h' :: t.data := rfl
  simp [parseOpt, len_eq_zero_iff, String.ext_iff, strings.HasPrefix, strings.TrimPrefix, hd]

theorem floatChars_head {c : Char} (h : c ∈ floatChars) :
    c ≠ 'r' ∧ c ≠ 'q' ∧ c ≠ 's' ∧ c ≠ 'c' ∧ c ≠ 'x' ∧ c ≠ ',' := by
  have hall : ∀ d ∈ floatChars, d ≠ 'r' ∧ d ≠ 'q' ∧ d ≠ 's' ∧ d ≠ 'c' ∧ d ≠ 'x' ∧ d ≠ ',' := by
    decide
  exact hall c h

theorem parseOpt_size (acc : Options F) (w h : String) (hw : w ≠ "")
    (hwc : ∀ c ∈ w.data, c ∈ floatChars) (hh : h ≠ "") :
    parseOpt acc (w ++ String.singleton optSizeDelimiter ++ h)
      = { acc with Width := (Float64Ops.parseFloat w).1,
                   Height := (Float64Ops.parseFloat h).1 } := by
  have hxw : 'x' ∉ w.data := fun m => (floatChars_head (hwc _ m)).2.2.2.2.1 rfl
  have hsplit := SplitN2_append 'x' w h hxw
  obtain ⟨c, w', hcw⟩ : ∃ c w', w.data = c :: w' := by
    cases hdw : w.data with
    | nil => exact absurd (String.ext hdw) hw
    | cons c w' => exact ⟨c, w', rfl⟩
  have hc := floatChars_head (hwc c (by simp [hcw]))
  have hd : (w ++ String.singleton 'x' ++ h).data = c :: (w' ++ 'x' :: h.data) := by
    simp [String.data_append, String.singleton, hcw]
  have hx : 'x' ∈ (w ++ String.singleton 'x' ++ h).data := by
    rw [hd]; simp
  have hlit : ∀ l : String, 'x' ∉ l.data → (w ++ String.singleton 'x' ++ h) ≠ l :=
    fun l hl e => hl (e ▸ hx)
  have hwd : w.data ≠ [] := by simp [hcw]
  have hhd : h.data ≠ [] := fun e => hh (String.ext e)
  have h1 := hlit optFit (by decide)
  have h2 := hlit optFlipVertical (by decide)
  have h3 := hlit optFlipHorizontal (by decide)
  have h4 := hlit optScaleUp (by decide)
  have h5 := hlit optFormatJPEG (by decide)
  have h6 := hlit optFormatPNG (by decide)
  have h7 := hlit optFormatTIFF (by decide)
  have h8 := hlit optSmartCrop (by decide)
  simp only [optSizeDelimiter] at *
  unfold parseOpt
  rw [if_neg (by rw [len_eq_zero_iff, hd]; simp), if_neg h1, if_neg h2, if_neg h3, if_neg h4,
    if_neg (by simp [h5, h6, h7]), if_neg h8]
  simp [strings.HasPrefix, strings.Contains, hd, hc.1, hc.2.1, hc.2.2.1, hc.2.2.2.1,
    Ne.symm hc.1, Ne.symm hc.2.1, Ne.symm hc.2.2.1, Ne.symm hc.2.2.2.1, hsplit, optSizeDelimiter,
    String.ext_iff, hwd, hhd]

theorem fmtD_no_comma (i : Int) : ',' ∉ (fmtD i).data := by
  have hd := natDigits_digits i.natAbs
  have hc : ',' ∉ natDigits i.natAbs := fun m => by
    have := hd _ m
    simp at this
  unfold fmtD
  split <;> simp [hc]

theorem fmtV_no_comma (f : F) (h : ReadsBack f) : ',' ∉ (Float64Ops.fmtV f).data :=
  fun m => (floatChars_head (h.2.1 _ m)).2.2.2.2.2 rfl

theorem fold_size (acc : Options F) (w h : F) (hw : ReadsBack w) (hh : ReadsBack h) :
    List.foldl parseOpt acc
      [Float64Ops.fmtV w ++ String.singleton optSizeDelimiter ++ Float64Ops.fmtV h]
      = { acc with Width := w, Height := h } := by
  simp only [List.foldl_cons, List.foldl_nil]
  rw [parseOpt_size acc _ _ hw.1 hw.2.1 hh.1, hw.2.2, hh.2.2]

theorem fold_fit (acc : Options F) (b : Bool) :
    List.foldl parseOpt acc (if b = true then [optFit] else [])
      = { acc with Fit := b || acc.Fit } := by
  cases b <;> simp [optFit, parseOpt_fit]

theorem fold_fv (acc : Options F) (b : Bool) :
    List.foldl parseOpt acc (if b = true then [optFlipVertical] else [])
      = { acc with FlipVertical := b || acc.FlipVertical } := by
  cases b <;> simp [optFlipVertical, parseOpt_fv]

theorem fold_fh (acc : Options F) (b : Bool) :
    List.foldl parseOpt acc (if b = true then [optFlipHorizontal] else [])
      = { acc with FlipHorizontal := b || acc.FlipHorizontal } := by
  cases b <;> simp [optFlipHorizontal, parseOpt_fh]

theorem fold_scaleUp (acc : Options F) (b : Bool) :
    List.foldl parseOpt acc (if b = true then [optScaleUp] else [])
      = { acc with ScaleUp := b || acc.ScaleUp } := by
  cases b <;> simp [optScaleUp, parseOpt_scaleUp]

theorem fold_sc (acc : Options F) (b : Bool) :
    List.foldl parseOpt acc (if b = true then [optSmartCrop] else [])
      = { acc with SmartCrop := b || acc.SmartCrop } := by
  cases b <;> simp [optSmartCrop, parseOpt_sc]

theorem fold_rotate (acc : Options F) (i : Int) (hi : IsInt i) :
    List.foldl parseOpt acc (if i ≠ 0 then [optRotatePrefix ++ fmtD i] else [])
      = { acc with Rotate := if i ≠ 0 then i else acc.Rotate } := by
  by_cases h : i = 0 <;> simp [h, optRotatePrefix, parseOpt_rotate, hi]

theorem fold_quality (acc : Options F) (i : Int) (hi : IsInt i) :
    List.foldl parseOpt acc (if i ≠ 0 then [optQualityPrefix ++ fmtD i] else [])
      = { acc with Quality := if i ≠ 0 then i else acc.Quality } := by
  by_cases h : i = 0 <;> simp [h, optQualityPrefix, parseOpt_quality, hi]

theorem fold_signature (acc : Options F) (sig : String) (h1 : sig ≠ "c")
    (h2 : sig ≠ "caleUp") :
    List.foldl parseOpt acc (if sig ≠ "" then [optSignaturePrefix ++ sig] else [])
      = { acc with Signature := if sig ≠ "" then sig else acc.Signature } := by
  by_cases h : sig = "" <;> simp [h, optSignaturePrefix, parseOpt_signature, h1, h2]

theorem fold_format (acc : Options F) (f : String)
    (hf : f = "" ∨ f = "jpeg" ∨ f = "png" ∨ f = "tiff") :
    List.foldl parseOpt acc (if f ≠ "" then [f] else [])
      = { acc with Format := if f ≠ "" then f else acc.Format } := by
  by_cases h : f = ""
  · simp [h]
  · have hf2 : f = "jpeg" ∨ f = "png" ∨ f = "tiff" := hf.resolve_left h
    simp [h, parseOpt_format acc f hf2]

theorem fold_cx (acc : Options F) (f : F) (hf : ReadsBack f) :
    List.foldl parseOpt acc
      (if (!Float64Ops.isZero f) = true then [optCropX ++ Float64Ops.fmtV f] else [])
      = { acc with CropX := if Float64Ops.isZero f then acc.CropX else f } := by
  cases h : Float64Ops.isZero f <;> simp [optCropX, parseOpt_cx, hf.2.2]

theorem fold_cy (acc : Options F) (f : F) (hf : ReadsBack f) :
    List.foldl parseOpt acc
      (if (!Float64Ops.isZero f) = true then [optCropY ++ Float64Ops.fmtV f] else [])
      = { acc with CropY := if Float64Ops.isZero f then acc.CropY else f } := by
  cases h : Float64Ops.isZero f <;> simp [optCropY, parseOpt_cy, hf.2.2]

theorem fold_cw (acc : Options F) (f : F) (hf : ReadsBack f) :
    List.foldl parseOpt acc
      (if (!Float64Ops.isZero f) = true then [optCropWidth ++ Float64Ops.fmtV f] else [])
      = { acc with CropWidth := if Float64Ops.isZero f then acc.CropWidth else f } := by
  cases h : Float64Ops.isZero f <;> simp [optCropWidth, parseOpt_cw, hf.2.2]

theorem fold_ch (acc : Options F) (f : F) (hf : ReadsBack f) :
    List.foldl parseOpt acc
      (if (!Float64Ops.isZero f) = true then [optCropHeight ++ Float64Ops.fmtV f] else [])
      = { acc with CropHeight := if Float64Ops.isZero f then acc.CropHeight else f } := by
  cases h : Float64Ops.isZero f <;> simp [optCropHeight, parseOpt_ch, hf.2.2]

/-- The appended form of the slice built by `Options.String`. -/
theorem optsSlice_append (o : Options F) :
    o.optsSlice =
      [Float64Ops.fmtV o.Width ++ String.singleton optSizeDelimiter ++ Float64Ops.fmtV o.Height]
      ++ ((if o.Fit = true then [optFit] else [])
      ++ ((if o.Rotate ≠ 0 then [optRotatePrefix ++ fmtD o.Rotate] else [])
      ++ ((if o.FlipVertical = true then [optFlipVertical] else [])
      ++ ((if o.FlipHorizontal = true then [optFlipHorizontal] else [])
      ++ ((if o.Quality ≠ 0 then [optQualityPrefix ++ fmtD o.Quality] else [])
      ++ ((if o.Signature ≠ "" then [optSignaturePrefix ++ o.Signature] else [])
      ++ ((if o.ScaleUp = true then [optScaleUp] else [])
      ++ ((if o.Format ≠ "" then [o.Format] else [])
      ++ ((if (!Float64Ops.isZero o.CropX) = true then [optCropX ++ Float64Ops.fmtV o.CropX] else [])
      ++ ((if (!Float64Ops.isZero o.CropY) = true then [optCropY ++ Float64Ops.fmtV o.CropY] else [])
      ++ ((if (!Float64Ops.isZero o.CropWidth) = true
            then [optCropWidth ++ Float64Ops.fmtV o.CropWidth] else [])
      ++ ((if (!Float64Ops.isZero o.CropHeight) = true
            then [optCropHeight ++ Float64Ops.fmtV o.CropHeight] else [])
      ++ (if o.SmartCrop = true then [optSmartCrop] else []))))))))))))) := by
  simp only [Options.optsSlice, ite_append_singleton]
  simp only [List.append_assoc]

/-- Folding the parser over the tokens of `o` rebuilds `o`. -/
theorem foldl_parseOpt_optsSlice (o : Options F) (h : o.Readable) :
    List.foldl parseOpt emptyOptions o.optsSlice = o.zeroCrops := by
  rw [optsSlice_append]
  simp only [List.foldl_append, fold_size _ _ _ h.width h.height, fold_fit,
    fold_rotate _ _ h.rotate, fold_fv, fold_fh, fold_quality _ _ h.quality,
    fold_signature _ _ h.sigC h.sigCaleUp, fold_scaleUp, fold_format _ _ h.format,
    fold_cx _ _ h.cropX, fold_cy _ _ h.cropY, fold_cw _ _ h.cropWidth,
    fold_ch _ _ h.cropHeight, fold_sc]
  cases o
  simp [emptyOptions, Options.zeroCrops, zeroIfZero]
  exact ⟨fun e => e.symm, fun e => e.symm, fun e => e.symm, fun e => e.symm⟩

theorem optsSlice_no_comma (o : Options F) (h : o.Readable) :
    ∀ t ∈ o.optsSlice, ',' ∉ t.data := by
  have hW := fmtV_no_comma _ h.width
  have hH := fmtV_no_comma _ h.height
  have hX := fmtV_no_comma _ h.cropX
  have hY := fmtV_no_comma _ h.cropY
  have hCW := fmtV_no_comma _ h.cropWidth
  have hCH := fmtV_no_comma _ h.cropHeight
  have hR := fmtD_no_comma o.Rotate
  have hQ := fmtD_no_comma o.Quality
  have hS := h.sigComma
  have hF : ',' ∉ o.Format.data := by
    rcases h.format with e | e | e | e <;> rw [e] <;> decide
  have htab : ∀ p ∈ specTokenTable o, ',' ∉ p.2.data := by
    simp [specTokenTable, String.data_append, hW, hH, hX, hY, hCW, hCH, hR, hQ, hS, hF]
  intro t ht
  rw [optsSlice_eq, specTokens] at ht
  obtain ⟨p, hp, rfl⟩ := List.mem_map.1 ht
  exact htab p (List.mem_filter.1 hp).1

theorem optsSlice_ne_nil (o : Options F) : o.optsSlice ≠ [] := by
  rw [optsSlice_append]
  simp

/-- Reading the canonical encoding back with `ParseOptions`. -/
theorem ParseOptions_String (o : Options F) (h : o.Readable) :
    ParseOptions o.String = o.zeroCrops := by
  unfold ParseOptions Options.String
  rw [Split_Join _ (optsSlice_ne_nil o) (optsSlice_no_comma o h)]
  exact foldl_parseOpt_optsSlice o h

end Imageproxy

namespace Go

theorem length_le_utf8Len (l : List Char) : l.length ≤ String.utf8Len l := by
  induction l with
  | nil => simp
  | cons c cs ih =>
    have := c.utf8Size_pos
    simp only [String.utf8Len_cons, List.length_cons]
    omega

theorem length_le_natDigitsAux (fuel m : Nat) (acc : List Char) :
    acc.length ≤ (natDigitsAux fuel m acc).length := by
  induction fuel generalizing m acc with
  | zero => simp [natDigitsAux]
  | succ fuel ih =>
    unfold natDigitsAux
    split
    · simp
    · exact Nat.le_trans (by simp) (ih _ _)

theorem natDigits_length_two (n : Nat) (h : 10 ≤ n) : 2 ≤ (natDigits n).length := by
  unfold natDigits natDigitsAux
  rw [if_neg (by omega)]
  obtain ⟨k, hk⟩ : ∃ k, n = k + 1 := ⟨n - 1, by omega⟩
  rw [hk]
  unfold natDigitsAux
  split
  · simp
  · exact Nat.le_trans (by simp) (length_le_natDigitsAux _ _ _)

/-- The token `r` followed by an integer that is negative or has two digits is
longer than two bytes. -/
theorem len_r_fmtD (i : Int) (h : i < 0 ∨ 10 ≤ i) : 2 < len ("r" ++ fmtD i) := by
  have hd : ("r" ++ fmtD i).data = 'r' :: (fmtD i).data := rfl
  have hlen : 2 ≤ (fmtD i).data.length := by
    unfold fmtD
    by_cases hneg : i < 0
    · have := natDigits_ne_nil i.natAbs
      have : 1 ≤ (natDigits i.natAbs).length := by
        cases hl : natDigits i.natAbs with
        | nil => exact absurd hl this
        | cons c cs => simp
      simp only [hneg, if_true, List.length_cons]
      omega
    · simp only [hneg, if_false]
      exact natDigits_length_two _ (by omega)
  have h1 := length_le_utf8Len ("r" ++ fmtD i).data
  rw [hd] at h1
  have h2 : len ("r" ++ fmtD i) = String.utf8Len ('r' :: (fmtD i).data) := by
    rw [← hd]
    cases ("r" ++ fmtD i) with
    | mk l => rfl
  rw [h2]
  simp only [List.length_cons] at h1
  omega

end Go

namespace Proxy

open Go

variable {F : Type}

theorem parsePart_fit (acc : Options F) : parsePart acc "fit" = { acc with Fit := true } := by
  simp [parsePart]

theorem parsePart_fv (acc : Options F) :
    parsePart acc "fv" = { acc with FlipVertical := true } := by
  simp [parsePart, String.ext_iff]

theorem parsePart_fh (acc : Options F) :
    parsePart acc "fh" = { acc with FlipHorizontal := true } := by
  simp [parsePart, String.ext_iff]

theorem parsePart_rotate (acc : Options F) (i : Int) (hi : IsInt i) (h : i < 0 ∨ 10 ≤ i) :
    parsePart acc ("r" ++ fmtD i) = { acc with Rotate := i } := by
  have hd : ("r" ++ fmtD i).data = 'r' :: (fmtD i).data := rfl
  have hl := len_r_fmtD i h
  simp [parsePart, String.ext_iff, strings.HasPrefix, hd, hl, Atoi_fmtD i hi.1 hi.2]

theorem proxy_fold_fit (acc : Options F) (b : Bool) :
    List.foldl parsePart acc (if b = true then ["fit"] else [])
      = { acc with Fit := b || acc.Fit } := by
  cases b <;> simp [parsePart_fit]

theorem proxy_fold_fv (acc : Options F) (b : Bool) :
    List.foldl parsePart acc (if b = true then ["fv"] else [])
      = { acc with FlipVertical := b || acc.FlipVertical } := by
  cases b <;> simp [parsePart_fv]

theorem proxy_fold_fh (acc : Options F) (b : Bool) :
    List.foldl parsePart acc (if b = true then ["fh"] else [])
      = { acc with FlipHorizontal := b || acc.FlipHorizontal } := by
  cases b <;> simp [parsePart_fh]

theorem proxy_fold_rotate (acc : Options F) (i : Int) (hi : IsInt i)
    (h : i = 0 ∨ i < 0 ∨ 10 ≤ i) :
    List.foldl parsePart acc (if i ≠ 0 then ["r" ++ fmtD i] else [])
      = { acc with Rotate := if i ≠ 0 then i else acc.Rotate } := by
  by_cases h0 : i = 0
  · simp [h0]
  · simp [h0, parsePart_rotate acc i hi (h.resolve_left h0)]

variable [Float64Ops F]

/-- The comma-separated pieces that `Options.String` of package `proxy`
writes into its buffer. -/
theorem String_eq_Join (o : Options F) :
    o.String = strings.Join
      ([Float64Ops.fmtV o.Width ++ String.singleton 'x' ++ Float64Ops.fmtV o.Height]
        ++ ((if o.Fit = true then ["fit"] else [])
        ++ ((if o.Rotate ≠ 0 then ["r" ++ fmtD o.Rotate] else [])
        ++ ((if o.FlipVertical = true then ["fv"] else [])
        ++ (if o.FlipHorizontal = true then ["fh"] else []))))) "," := by
  apply String.ext
  have hx : String.singleton 'x' = "x" := rfl
  have hr : (",r" : String) = "," ++ "r" := rfl
  have hc : (",".data : List Char) = [','] := rfl
  have h1 : (",fit" : String).data = ',' :: "fit".data := rfl
  have h2 : (",fv" : String).data = ',' :: "fv".data := rfl
  have h3 : (",fh" : String).data = ',' :: "fh".data := rfl
  have h4 : (",r" : String).data = ',' :: "r".data := rfl
  unfold Options.String strings.Join
  rw [hc, hx]
  by_cases hR : o.Rotate = 0 <;> cases o.Fit <;> cases o.FlipVertical <;>
    cases o.FlipHorizontal <;>
    simp [hR, joinChars_cons, String.data_append, h1, h2, h3, h4]

/-- Reading the encoding of package `proxy` back with its `ParseOptions`. -/
theorem proxy_ParseOptions_String (o : Options F) (hW : ReadsBack o.Width) (hH : ReadsBack o.Height)
    (hR : IsInt o.Rotate) (hR2 : o.Rotate = 0 ∨ o.Rotate < 0 ∨ 10 ≤ o.Rotate) :
    ParseOptions o.String = o := by
  have hxw : 'x' ∉ (Float64Ops.fmtV o.Width).data :=
    fun m => (Imageproxy.floatChars_head (hW.2.1 _ m)).2.2.2.2.1 rfl
  have hnc : ∀ t ∈ ([Float64Ops.fmtV o.Width ++ String.singleton 'x' ++ Float64Ops.fmtV o.Height]
        ++ ((if o.Fit = true then ["fit"] else [])
        ++ ((if o.Rotate ≠ 0 then ["r" ++ fmtD o.Rotate] else [])
        ++ ((if o.FlipVertical = true then ["fv"] else [])
        ++ (if o.FlipHorizontal = true then ["fh"] else []))))), ',' ∉ t.data := by
    have h1 := Imageproxy.fmtV_no_comma _ hW
    have h2 := Imageproxy.fmtV_no_comma _ hH
    have h3 := Imageproxy.fmtD_no_comma o.Rotate
    have hs : (String.singleton 'x').data = ['x'] := rfl
    intro t ht
    simp only [List.mem_append, List.mem_singleton] at ht
    rcases ht with rfl | ht | ht | ht | ht
    · simp [String.data_append, h1, h2, hs]
    · split at ht <;> simp at ht; subst ht; decide
    · split at ht <;> simp at ht; subst ht; simp [String.data_append, h3]
    · split at ht <;> simp at ht; subst ht; decide
    · split at ht <;> simp at ht; subst ht; decide
  unfold ParseOptions
  rw [String_eq_Join, Split_Join _ (by simp) hnc]
  simp only [List.singleton_append, List.headD_cons, List.tail_cons,
    SplitN2_append 'x' _ _ hxw, List.length_cons, List.length_nil, List.getD_cons_succ,
    List.getD_cons_zero]
  have hw1 : Float64Ops.fmtV o.Width ≠ "" := hW.1
  have hh1 : Float64Ops.fmtV o.Height ≠ "" := hH.1
  simp only [List.foldl_append, proxy_fold_fit, proxy_fold_rotate _ _ hR hR2, proxy_fold_fv, proxy_fold_fh]
  cases o
  simp_all [ReadsBack]

end Proxy

namespace Imageproxy

open Go

variable {F : Type} [Float64Ops F]

theorem formValue_other (k v : String) (st : Options F × Bool) (hk : k ∉ optionKeys) :
    formValue k v st = st := by
  simp only [optionKeys, List.mem_cons, List.mem_singleton, List.not_mem_nil, or_false,
    not_or] at hk
  obtain ⟨h1, h2, h3, h4, h5, h6, h7, h8, h9, h10⟩ := hk
  unfold formValue
  rw [if_neg h1, if_neg h2, if_neg h3, if_neg h4, if_neg h5, if_neg h6, if_neg h7, if_neg h8,
    if_neg h9, if_neg h10]

theorem foldl_formValue_other (k : String) (vs : List String) (st : Options F × Bool)
    (hk : k ∉ optionKeys) : vs.foldl (fun st value => formValue k value st) st = st := by
  induction vs with
  | nil => rfl
  | cons v vs ih => simp [List.foldl_cons, formValue_other k v st hk, ih]

theorem formLoop_append (a b : List (String × List String)) (st : Options F × Bool) :
    formLoop (a ++ b) st = formLoop b (formLoop a st) := by
  simp [formLoop, List.foldl_append]

theorem formLoop_cons (kv : String × List String) (b : List (String × List String))
    (st : Options F × Bool) :
    formLoop (kv :: b) st
      = formLoop b (kv.2.foldl (fun st value => formValue kv.1 value st) st) := by
  simp [formLoop]

theorem formLoop_nil (st : Options F × Bool) : formLoop [] st = st := rfl

omit [Float64Ops F] in
theorem ite_state_fit (c : Prop) [Decidable c] (a b : Options F × Bool) (x : Bool)
    (ha : a.1.Fit = x) (hb : b.1.Fit = x) : (if c then a else b).1.Fit = x := by
  split <;> assumption

omit [Float64Ops F] in
theorem ite_state_seen (c : Prop) [Decidable c] (a b : Options F × Bool) (x : Bool)
    (ha : a.2 = x) (hb : b.2 = x) : (if c then a else b).2 = x := by
  split <;> assumption

omit [Float64Ops F] in
theorem ite_options_fit (c : Prop) [Decidable c] (a b : Options F) (x : Bool)
    (ha : a.Fit = x) (hb : b.Fit = x) : (if c then a else b).Fit = x := by
  split <;> assumption

/-- One value of a key other than `mode` changes neither `Fit` nor `modeSeen`. -/
theorem formValue_not_mode (k v : String) (st : Options F × Bool) (hk : k ≠ "mode") :
    (formValue k v st).1.Fit = st.1.Fit ∧ (formValue k v st).2 = st.2 := by
  constructor
  · unfold formValue
    rw [if_neg hk]
    repeat' (first | rfl | apply ite_state_fit | apply ite_options_fit)
  · unfold formValue
    rw [if_neg hk]
    repeat' (first | rfl | apply ite_state_seen)

/-- One value of the key `mode` sets `modeSeen`, and sets `Fit` when it is `fit`. -/
theorem formValue_mode (v : String) (st : Options F × Bool) :
    (formValue "mode" v st).1.Fit = (decide (v = "fit") || st.1.Fit)
      ∧ (formValue "mode" v st).2 = true := by
  unfold formValue
  rw [if_pos rfl]
  by_cases h1 : v = "fit"
  · simp [h1]
  · by_cases h2 : v = "smartcrop" <;> simp [h1, h2]

theorem foldl_formValue_not_mode (k : String) (vs : List String) (st : Options F × Bool)
    (hk : k ≠ "mode") :
    (vs.foldl (fun st value => formValue k value st) st).1.Fit = st.1.Fit
      ∧ (vs.foldl (fun st value => formValue k value st) st).2 = st.2 := by
  induction vs generalizing st with
  | nil => exact ⟨rfl, rfl⟩
  | cons v vs ih =>
    have h1 := formValue_not_mode k v st hk
    have h2 := ih (formValue k v st)
    simp only [List.foldl_cons]
    exact ⟨h2.1.trans h1.1, h2.2.trans h1.2⟩

theorem foldl_formValue_mode (vs : List String) (st : Options F × Bool) :
    ((vs.foldl (fun st value => formValue "mode" value st) st).1.Fit = true
        ↔ "fit" ∈ vs ∨ st.1.Fit = true)
      ∧ ((vs.foldl (fun st value => formValue "mode" value st) st).2 = true
        ↔ vs ≠ [] ∨ st.2 = true) := by
  induction vs generalizing st with
  | nil => simp
  | cons v vs ih =>
    have h1 := formValue_mode v st
    have h2 := ih (formValue "mode" v st)
    simp only [List.foldl_cons]
    rw [h2.1, h2.2, h1.1, h1.2]
    constructor
    · simp only [List.mem_cons, Bool.or_eq_true, decide_eq_true_eq]
      constructor
      · rintro (h | h | h)
        · exact Or.inl (Or.inr h)
        · exact Or.inl (Or.inl h.symm)
        · exact Or.inr h
      · rintro ((h | h) | h)
        · exact Or.inr (Or.inl h.symm)
        · exact Or.inl h
        · exact Or.inr (Or.inr h)
    · simp

/-- The state after the loops: `Fit` is set exactly by a `mode` value `fit`,
`modeSeen` exactly by a `mode` key with a value. -/
theorem formLoop_spec (form : List (String × List String)) (st : Options F × Bool) :
    ((formLoop form st).1.Fit = true
        ↔ (∃ kv ∈ form, kv.1 = "mode" ∧ "fit" ∈ kv.2) ∨ st.1.Fit = true)
      ∧ ((formLoop form st).2 = true
        ↔ (∃ kv ∈ form, kv.1 = "mode" ∧ kv.2 ≠ []) ∨ st.2 = true) := by
  induction form generalizing st with
  | nil => simp [formLoop_nil]
  | cons kv form ih =>
    rw [formLoop_cons]
    have h2 := ih (kv.2.foldl (fun st value => formValue kv.1 value st) st)
    rw [h2.1, h2.2]
    by_cases hk : kv.1 = "mode"
    · have h1 := foldl_formValue_mode kv.2 st
      rw [hk, h1.1, h1.2]
      simp only [List.mem_cons, exists_eq_or_imp, hk, true_and]
      clear h1 h2 ih
      generalize (∃ kv ∈ form, kv.1 = "mode" ∧ "fit" ∈ kv.2) = A
      generalize (∃ kv ∈ form, kv.1 = "mode" ∧ kv.2 ≠ []) = B
      constructor <;> constructor <;> intro h <;> tauto
    · have h1 := foldl_formValue_not_mode kv.1 kv.2 st hk
      rw [h1.1, h1.2]
      simp only [List.mem_cons, exists_eq_or_imp, hk, false_and, false_or]
      exact ⟨trivial, trivial⟩

/-- The last step of `ParseFormValues` only touches `Fit`. -/
theorem ParseFormValues_fit (form : List (String × List String)) (d : Options F) :
    (ParseFormValues form d).Fit
      = ((!(formLoop form (d, false)).2 && Float64Ops.gtZero (formLoop form (d, false)).1.Width
            && Float64Ops.gtZero (formLoop form (d, false)).1.Height)
          || (formLoop form (d, false)).1.Fit) := by
  unfold ParseFormValues
  simp only []
  split
  · rename_i h; simp [h]
  · rename_i h
    simp only [Bool.not_eq_true] at h
    simp [h]

/-- The result of `ParseFormValues` is the state of the loops with `Fit`
adjusted. -/
theorem ParseFormValues_eq (form : List (String × List String)) (d : Options F) :
    ParseFormValues form d
      = { (formLoop form (d, false)).1 with Fit := (ParseFormValues form d).Fit } := by
  unfold ParseFormValues
  simp only []
  split <;> rfl

theorem formValue_crop (v : String) (st : Options F × Bool) :
    formValue "crop" v st
      = (if (strings.Split v ',').length = 4 then
          { st.1 with
            CropX := (Float64Ops.parseFloat ((strings.Split v ',').getD 0 "")).1,
            CropY := (Float64Ops.parseFloat ((strings.Split v ',').getD 1 "")).1,
            CropWidth := (Float64Ops.parseFloat ((strings.Split v ',').getD 2 "")).1,
            CropHeight := (Float64Ops.parseFloat ((strings.Split v ',').getD 3 "")).1 }
         else st.1, st.2) := by
  unfold formValue
  rw [if_neg (by decide), if_neg (by decide), if_neg (by decide), if_neg (by decide),
    if_neg (by decide), if_neg (by decide), if_pos rfl]

theorem ParseFormValues_width (form : List (String × List String)) (d : Options F) :
    (ParseFormValues form d).Width = (formLoop form (d, false)).1.Width := by
  unfold ParseFormValues
  simp only []
  split <;> rfl

theorem ParseFormValues_height (form : List (String × List String)) (d : Options F) :
    (ParseFormValues form d).Height = (formLoop form (d, false)).1.Height := by
  unfold ParseFormValues
  simp only []
  split <;> rfl

end Imageproxy

/-! ## The claims -/

namespace Imageproxy

open Go

variable {F : Type} [Float64Ops F]

/-- C1: for every Options value, `String()` is the comma-join of the size token
followed, in the stated order, by exactly the tokens whose field is not the
default; the zero Options encodes as `0x0`. -/
theorem C1_String_is_join_of_spec_tokens :
    (∀ (G : Type) [Float64Ops G] (o : Options G),
        o.String = String.intercalate "," (specTokens o))
      ∧ (emptyOptions : Options Float64).String = "0x0" :=
  ⟨fun G _ o => by rw [Options.String, Join_eq_intercalate, optsSlice_eq], by decide⟩

/-- C2, as stated, fails: the options with signature `caleUp` and the options
with only ScaleUp set are different and both encode as `0x0,scaleUp`. -/
theorem C2_counterexample_signature_collides :
    sigCaleUpOptions.String = "0x0,scaleUp" ∧ scaleUpOptions.String = "0x0,scaleUp"
      ∧ sigCaleUpOptions ≠ scaleUpOptions := by
  decide

/-- C2, amended: on options that can be read back (ints in range, floats read
back from their text, an enumerated format, a signature without comma other
than `c` and `caleUp`), equal encodings imply equal options, a crop field that
compares equal to zero counting as 0. -/
theorem C2_String_injective_on_readable (a b : Options F) (ha : a.Readable)
    (hb : b.Readable) (h : a.String = b.String) : a.zeroCrops = b.zeroCrops := by
  rw [← ParseOptions_String a ha, ← ParseOptions_String b hb, h]

/-- Witness of C2: a crop x of `-0` and a crop x of `0` have the same encoding
`1x0` and are equal as Go compares them. -/
theorem C2_witness :
    negZeroCropOptions.String = widthOneOptions.String
      ∧ negZeroCropOptions.zeroCrops = widthOneOptions.zeroCrops :=
  ⟨by decide,
    C2_String_injective_on_readable negZeroCropOptions widthOneOptions (by decide) (by decide)
      (by decide)⟩

/-- C3, as stated, fails: the options with signature `c` encode as `0x0,sc`,
which `ParseOptions` reads as SmartCrop with an empty signature. -/
theorem C3_counterexample_signature_c :
    sigCOptions.String = "0x0,sc"
      ∧ (ParseOptions sigCOptions.String : Options Float64).Signature = ""
      ∧ (ParseOptions sigCOptions.String : Options Float64).SmartCrop = true
      ∧ sigCOptions.Signature = "c" ∧ sigCOptions.SmartCrop = false := by
  decide

/-- C3, amended: for options that can be read back, `ParseOptions(o.String())`
equals `o` on every field, a crop field that compares equal to zero coming
back as 0. -/
theorem C3_ParseOptions_String_round_trip (o : Options F) (h : o.Readable) :
    ParseOptions o.String = o.zeroCrops :=
  ParseOptions_String o h

/-- Witness of C3 on the fifth row of `TestOptions_String`. -/
theorem C3_witness :
    testOptions.Readable ∧ ParseOptions testOptions.String = testOptions.zeroCrops
      ∧ testOptions.zeroCrops = testOptions :=
  ⟨by decide, C3_ParseOptions_String_round_trip testOptions (by decide), by decide⟩

/-- C5: a key outside the option vocabulary changes no field of the result:
adding it with any values anywhere in the visiting order of the form leaves
`ParseFormValues` unchanged. -/
theorem C5_unrecognized_key_ignored (pre post : List (String × List String))
    (d : Options F) (k : String) (vs : List String) (hk : k ∉ optionKeys) :
    ParseFormValues (pre ++ (k, vs) :: post) d = ParseFormValues (pre ++ post) d := by
  have h : formLoop (pre ++ (k, vs) :: post) (d, false) = formLoop (pre ++ post) (d, false) := by
    rw [formLoop_append, formLoop_cons, formLoop_append]
    simp only [foldl_formValue_other k vs _ hk]
  unfold ParseFormValues
  rw [h]

/-- Witness of C5: dropping the key `BAR` from the mixed test query. -/
theorem C5_witness :
    "BAR" ∉ optionKeys
      ∧ ParseFormValues mixedForm (emptyOptions : Options Float64)
        = ParseFormValues
            [("FOO", ["BAR"]), ("size", ["1"]), ("rotate", ["90"]), ("BAZ", ["DAS"])]
            (emptyOptions : Options Float64) :=
  ⟨by decide,
    C5_unrecognized_key_ignored [("FOO", ["BAR"]), ("size", ["1"])]
      [("rotate", ["90"]), ("BAZ", ["DAS"])] emptyOptions "BAR" ["foo"] (by decide)⟩

/-- C6, as stated, fails: with defaults of width 1 and height 1 and the value
`abc`, `size=abc` keeps the defaults (and auto-fit applies) while
`width=abc&height=abc` overwrites both with 0. -/
theorem C6_counterexample_unparsable_size :
    ParseFormValues [("size", ["abc"])] oneByOneDefaults
        = { oneByOneDefaults with Fit := true }
      ∧ ParseFormValues [("width", ["abc"]), ("height", ["abc"])] oneByOneDefaults
        = (emptyOptions : Options Float64)
      ∧ ParseFormValues [("size", ["abc"])] oneByOneDefaults
        ≠ ParseFormValues [("width", ["abc"]), ("height", ["abc"])] oneByOneDefaults := by
  decide

/-- C6, amended: for every default and every value that `ParseFloat` accepts
without error, `size=N` gives the same options as `width=N&height=N`, in
either visiting order of `width` and `height`. -/
theorem C6_size_eq_width_height (d : Options F) (N : String)
    (hN : (Float64Ops.parseFloat N : F × Bool).2 = true) :
    ParseFormValues [("size", [N])] d = ParseFormValues [("width", [N]), ("height", [N])] d
      ∧ ParseFormValues [("size", [N])] d
        = ParseFormValues [("height", [N]), ("width", [N])] d := by
  constructor <;>
    simp [ParseFormValues, formLoop, formValue, hN, String.ext_iff]

/-- Witness of C6 on `size=1` with zero defaults. -/
theorem C6_witness :
    (Float64Ops.parseFloat "1" : Float64 × Bool).2 = true
      ∧ ParseFormValues [("size", ["1"])] (emptyOptions : Options Float64)
        = ParseFormValues [("width", ["1"]), ("height", ["1"])] emptyOptions :=
  ⟨by decide, (C6_size_eq_width_height emptyOptions "1" (by decide)).1⟩

/-- C7: for a form whose only key is `crop` with a single value `v`: when `v`
splits on commas into exactly four parts, the four crop fields are the floats
`ParseFloat` returns for the parts; when it splits into any other number of
parts, the four crop fields are those of the default. -/
theorem C7_crop_four_parts (d : Options F) (v : String) :
    (∀ a b c e : String, strings.Split v ',' = [a, b, c, e] →
        (ParseFormValues [("crop", [v])] d).CropX = (Float64Ops.parseFloat a).1
          ∧ (ParseFormValues [("crop", [v])] d).CropY = (Float64Ops.parseFloat b).1
          ∧ (ParseFormValues [("crop", [v])] d).CropWidth = (Float64Ops.parseFloat c).1
          ∧ (ParseFormValues [("crop", [v])] d).CropHeight = (Float64Ops.parseFloat e).1)
      ∧ ((strings.Split v ',').length ≠ 4 →
        (ParseFormValues [("crop", [v])] d).CropX = d.CropX
          ∧ (ParseFormValues [("crop", [v])] d).CropY = d.CropY
          ∧ (ParseFormValues [("crop", [v])] d).CropWidth = d.CropWidth
          ∧ (ParseFormValues [("crop", [v])] d).CropHeight = d.CropHeight) := by
  have hloop : formLoop [("crop", [v])] (d, false) = formValue "crop" v (d, false) := rfl
  constructor
  · intro a b c e h
    rw [ParseFormValues_eq, hloop, formValue_crop, h]
    simp
  · intro h
    rw [ParseFormValues_eq, hloop, formValue_crop, if_neg h]
    exact ⟨rfl, rfl, rfl, rfl⟩

/-- Witness of C7 on `crop=100,200,300,400` and on `crop=,,,,` with the test
options as defaults. -/
theorem C7_witness :
    ((ParseFormValues [("crop", ["100,200,300,400"])] (emptyOptions : Options Float64)).CropX
          = f64 "100"
        ∧ (ParseFormValues [("crop", ["100,200,300,400"])] (emptyOptions : Options Float64)).CropY
          = f64 "200"
        ∧ (ParseFormValues [("crop", ["100,200,300,400"])]
            (emptyOptions : Options Float64)).CropWidth = f64 "300"
        ∧ (ParseFormValues [("crop", ["100,200,300,400"])]
            (emptyOptions : Options Float64)).CropHeight = f64 "400")
      ∧ ((ParseFormValues [("crop", [",,,,"])] testOptions).CropX = testOptions.CropX
        ∧ (ParseFormValues [("crop", [",,,,"])] testOptions).CropY = testOptions.CropY
        ∧ (ParseFormValues [("crop", [",,,,"])] testOptions).CropWidth = testOptions.CropWidth
        ∧ (ParseFormValues [("crop", [",,,,"])] testOptions).CropHeight
          = testOptions.CropHeight) :=
  ⟨(C7_crop_four_parts emptyOptions "100,200,300,400").1 "100" "200" "300" "400" (by decide),
    (C7_crop_four_parts testOptions ",,,,").2 (by decide)⟩

/-- C8: auto-fit.  For a form without the key `mode`, the result has Fit true
when its Width and Height are both greater than zero, and the Fit of the
default otherwise. -/
theorem C8_auto_fit_without_mode (form : List (String × List String)) (d : Options F)
    (hm : ∀ kv ∈ form, kv.1 ≠ "mode") :
    (ParseFormValues form d).Fit
      = if Float64Ops.gtZero (ParseFormValues form d).Width = true
            ∧ Float64Ops.gtZero (ParseFormValues form d).Height = true
        then true else d.Fit := by
  have hspec := formLoop_spec form (d, false)
  have hno1 : ¬ ∃ kv ∈ form, kv.1 = "mode" ∧ "fit" ∈ kv.2 :=
    fun ⟨kv, hkv, hk, _⟩ => hm kv hkv hk
  have hno2 : ¬ ∃ kv ∈ form, kv.1 = "mode" ∧ kv.2 ≠ [] :=
    fun ⟨kv, hkv, hk, _⟩ => hm kv hkv hk
  have hseen : (formLoop form (d, false)).2 = false := by
    have := hspec.2
    simp only [hno2, false_or] at this
    cases hb : (formLoop form (d, false)).2
    · rfl
    · exact absurd (this.1 hb) (by simp)
  have hfit : (formLoop form (d, false)).1.Fit = d.Fit := by
    have := hspec.1
    simp only [hno1, false_or] at this
    cases hb : (formLoop form (d, false)).1.Fit <;> cases hd : d.Fit <;> simp_all
  rw [ParseFormValues_fit, ParseFormValues_width, ParseFormValues_height, hseen, hfit]
  cases Float64Ops.gtZero (formLoop form (d, false)).1.Width <;>
    cases Float64Ops.gtZero (formLoop form (d, false)).1.Height <;> simp

/-- Witness of C8 on `width=1&height=2` with zero defaults: Fit becomes true. -/
theorem C8_witness :
    (ParseFormValues [("width", ["1"]), ("height", ["2"])] (emptyOptions : Options Float64)).Fit
        = (if Float64Ops.gtZero
              (ParseFormValues [("width", ["1"]), ("height", ["2"])]
                (emptyOptions : Options Float64)).Width = true
            ∧ Float64Ops.gtZero
              (ParseFormValues [("width", ["1"]), ("height", ["2"])]
                (emptyOptions : Options Float64)).Height = true
          then true else (emptyOptions : Options Float64).Fit)
      ∧ (ParseFormValues [("width", ["1"]), ("height", ["2"])]
          (emptyOptions : Options Float64)).Fit = true :=
  ⟨C8_auto_fit_without_mode [("width", ["1"]), ("height", ["2"])] emptyOptions (by decide),
    by decide⟩

/-- C9: when the key `mode` occurs with at least one value, auto-fit is not
applied: the result has Fit true exactly when the default has Fit true or one
of the `mode` values is `fit`, whatever the resulting Width and Height. -/
theorem C9_mode_suppresses_auto_fit (form : List (String × List String)) (d : Options F)
    (hm : ∃ kv ∈ form, kv.1 = "mode" ∧ kv.2 ≠ []) :
    (ParseFormValues form d).Fit = true
      ↔ d.Fit = true ∨ ∃ kv ∈ form, kv.1 = "mode" ∧ "fit" ∈ kv.2 := by
  have hspec := formLoop_spec form (d, false)
  have hseen : (formLoop form (d, false)).2 = true := hspec.2.2 (Or.inl hm)
  rw [ParseFormValues_fit, hseen]
  simp only [Bool.not_true, Bool.false_and, Bool.false_or]
  rw [hspec.1]
  exact Or.comm

/-- Witness of C9 on `mode=smartcrop&width=1&height=2` with zero defaults:
SmartCrop is true, Width and Height are 1 and 2, and Fit stays false. -/
theorem C9_witness :
    ((ParseFormValues smartcropForm (emptyOptions : Options Float64)).Fit = true
        ↔ (emptyOptions : Options Float64).Fit = true
          ∨ ∃ kv ∈ smartcropForm, kv.1 = "mode" ∧ "fit" ∈ kv.2)
      ∧ ParseFormValues smartcropForm (emptyOptions : Options Float64)
        = { (emptyOptions : Options Float64) with
            Width := f64 "1", Height := f64 "2", SmartCrop := true } :=
  ⟨C9_mode_suppresses_auto_fit smartcropForm emptyOptions
      ⟨("mode", ["smartcrop"]), by decide, rfl, by decide⟩,
    by decide⟩

/-- C10 fails on the code: for the form with `size=1` and `width=2` the result
depends on the order in which the `range` loop visits the two keys.  Visited
as size, width the width is 2; visited as width, size it is 1, which is what
the documentation (a size overrides width and height) promises. -/
theorem C10_result_depends_on_visiting_order :
    (ParseFormValues [("size", ["1"]), ("width", ["2"])] (emptyOptions : Options Float64)).Width
        = f64 "2"
      ∧ (ParseFormValues [("width", ["2"]), ("size", ["1"])]
          (emptyOptions : Options Float64)).Width = f64 "1"
      ∧ ParseFormValues [("size", ["1"]), ("width", ["2"])] (emptyOptions : Options Float64)
        ≠ ParseFormValues [("width", ["2"]), ("size", ["1"])] emptyOptions := by
  decide

end Imageproxy

namespace Proxy

open Go

variable {F : Type} [Float64Ops F]

/-- C4, as stated, fails: a rotation by 5 encodes as `0x0,r5`, and the parser
of package `proxy` skips a token `r...` of two bytes. -/
theorem C4_counterexample_single_digit_rotate :
    rotateFiveOptions.String = "0x0,r5"
      ∧ (ParseOptions rotateFiveOptions.String : Options Float64).Rotate = 0
      ∧ rotateFiveOptions.Rotate = 5 := by
  decide

/-- C4, amended: in package `proxy`, `ParseOptions(o.String())` equals `o` on
all six fields when the floats are read back from their text and the rotation
is in the `int` range and is zero, negative or at least 10. -/
theorem C4_proxy_ParseOptions_String_round_trip (o : Options F) (hW : ReadsBack o.Width)
    (hH : ReadsBack o.Height) (hR : IsInt o.Rotate)
    (hR2 : o.Rotate = 0 ∨ o.Rotate < 0 ∨ 10 ≤ o.Rotate) :
    ParseOptions o.String = o :=
  proxy_ParseOptions_String o hW hH hR hR2

/-- Witness of C4 on `1x2,fit,r90,fv,fh`. -/
theorem C4_witness :
    testOptions.String = "1x2,fit,r90,fv,fh" ∧ ParseOptions testOptions.String = testOptions :=
  ⟨by decide,
    C4_proxy_ParseOptions_String_round_trip testOptions (by decide) (by decide) (by decide)
      (by decide)⟩

end Proxy

/-! ## Repeated keys and the size queries -/

namespace Imageproxy

open Go

variable {F : Type} [Float64Ops F]

theorem formValue_format (v : String) (st : Options F × Bool) :
    formValue "format" v st
      = (if v = optFormatJPEG then { st.1 with Format := optFormatJPEG }
         else if v = optFormatPNG then { st.1 with Format := optFormatPNG }
         else if v = optFormatTIFF then { st.1 with Format := optFormatTIFF }
         else st.1, st.2) := by
  unfold formValue
  rw [if_neg (by decide), if_neg (by decide), if_pos rfl]

theorem formValue_rotate (v : String) (st : Options F × Bool) :
    formValue "rotate" v st = ({ st.1 with Rotate := (strconv.Atoi v).1 }, st.2) := by
  unfold formValue
  rw [if_neg (by decide), if_neg (by decide), if_neg (by decide), if_pos rfl]

theorem formValue_quality (v : String) (st : Options F × Bool) :
    formValue "quality" v st = ({ st.1 with Quality := (strconv.Atoi v).1 }, st.2) := by
  unfold formValue
  rw [if_neg (by decide), if_neg (by decide), if_neg (by decide), if_neg (by decide),
    if_pos rfl]

theorem formValue_signature (v : String) (st : Options F × Bool) :
    formValue "signature" v st = ({ st.1 with Signature := v }, st.2) := by
  unfold formValue
  rw [if_neg (by decide), if_neg (by decide), if_neg (by decide), if_neg (by decide),
    if_neg (by decide), if_pos rfl]

theorem formValue_width (v : String) (st : Options F × Bool) :
    formValue "width" v st
      = ({ st.1 with Width := (Float64Ops.parseFloat v).1 }, st.2) := by
  unfold formValue
  rw [if_neg (by decide), if_neg (by decide), if_neg (by decide), if_neg (by decide),
    if_neg (by decide), if_neg (by decide), if_neg (by decide), if_pos rfl]

theorem formValue_height (v : String) (st : Options F × Bool) :
    formValue "height" v st
      = ({ st.1 with Height := (Float64Ops.parseFloat v).1 }, st.2) := by
  unfold formValue
  rw [if_neg (by decide), if_neg (by decide), if_neg (by decide), if_neg (by decide),
    if_neg (by decide), if_neg (by decide), if_neg (by decide), if_neg (by decide),
    if_pos rfl]

theorem formValue_size (v : String) (st : Options F × Bool) :
    formValue "size" v st
      = (if (Float64Ops.parseFloat v : F × Bool).2 = true then
          { st.1 with Width := (Float64Ops.parseFloat v).1,
                      Height := (Float64Ops.parseFloat v).1 }
         else st.1, st.2) := by
  unfold formValue
  rw [if_neg (by decide), if_neg (by decide), if_neg (by decide), if_neg (by decide),
    if_neg (by decide), if_neg (by decide), if_neg (by decide), if_neg (by decide),
    if_neg (by decide), if_pos rfl]

/-- A value that is assigned overwrites what an earlier value of the same key
did. -/
theorem formValue_overwrite (k u v : String) (st : Options F × Bool) (h : Assigns F k v) :
    formValue k v (formValue k u st) = formValue k v st := by
  rcases h with h | ⟨rfl, h⟩ | ⟨rfl, h⟩ | ⟨rfl, h⟩
  · simp only [List.mem_cons, List.mem_singleton, List.not_mem_nil, or_false] at h
    rcases h with rfl | rfl | rfl | rfl | rfl
    · simp only [formValue_rotate]
    · simp only [formValue_quality]
    · simp only [formValue_signature]
    · simp only [formValue_width]
    · simp only [formValue_height]
  · simp only [formValue_format, optFormatJPEG, optFormatPNG, optFormatTIFF]
    rcases h with rfl | rfl | rfl <;>
      by_cases h1 : u = "jpeg" <;> by_cases h2 : u = "png" <;> by_cases h3 : u = "tiff" <;>
      simp [h1, h2, h3]
  · simp only [formValue_crop, h, if_true]
    split <;> rfl
  · simp only [formValue_size, h, if_true]
    split <;> rfl

theorem foldl_formValue_last (k : String) (vs : List String) (hne : vs ≠ [])
    (st : Options F × Bool) (h : Assigns F k (vs.getLast hne)) :
    vs.foldl (fun st value => formValue k value st) st = formValue k (vs.getLast hne) st := by
  induction vs generalizing st with
  | nil => exact absurd rfl hne
  | cons u vs ih =>
    cases vs with
    | nil => rfl
    | cons v rest =>
      have hlast : (u :: v :: rest).getLast hne = (v :: rest).getLast (by simp) := by
        simp [List.getLast_cons]
      rw [hlast] at h ⊢
      rw [List.foldl_cons, ih (by simp) _ h, formValue_overwrite k u _ st h]

end Imageproxy

namespace Imageproxy

open Go

variable {F : Type} [Float64Ops F]

/-- C11, as stated, fails: with `format=png&format=gif` the last value `gif` is
not a format, so the earlier `png` stays, while `format=gif` alone leaves the
format empty. -/
theorem C11_counterexample_rejected_last_value :
    (ParseFormValues [("format", ["png", "gif"])] (emptyOptions : Options Float64)).Format = "png"
      ∧ (ParseFormValues [("format", ["gif"])] (emptyOptions : Options Float64)).Format = ""
      ∧ ParseFormValues [("format", ["png", "gif"])] (emptyOptions : Options Float64)
        ≠ ParseFormValues [("format", ["gif"])] emptyOptions := by
  decide

/-- C11, amended: for every default, every key among rotate, quality,
signature, format, crop, width, height, size and every non-empty list of values
whose last element is a value the parser assigns (any value of rotate, quality,
signature, width, height; a format among jpeg, png, tiff; a crop of four
parts; a size that parses without error), the result is that of the last value
alone. -/
theorem C11_last_assigned_value_wins (d : Options F) (k : String) (vs : List String)
    (hne : vs ≠ []) (h : Assigns F k (vs.getLast hne)) :
    ParseFormValues [(k, vs)] d = ParseFormValues [(k, [vs.getLast hne])] d := by
  have hloop : formLoop [(k, vs)] (d, false) = formLoop [(k, [vs.getLast hne])] (d, false) := by
    simp only [formLoop, List.foldl_cons, List.foldl_nil]
    exact foldl_formValue_last k vs hne (d, false) h
  unfold ParseFormValues
  rw [hloop]

/-- Witness of C11 on `rotate=90&rotate=180` and on `size=abc&size=2`. -/
theorem C11_witness :
    ParseFormValues [("rotate", ["90", "180"])] (emptyOptions : Options Float64)
        = ParseFormValues [("rotate", ["180"])] emptyOptions
      ∧ ParseFormValues [("size", ["abc", "2"])] (emptyOptions : Options Float64)
        = ParseFormValues [("size", ["2"])] emptyOptions :=
  ⟨C11_last_assigned_value_wins emptyOptions "rotate" ["90", "180"] (by decide) (by decide),
    C11_last_assigned_value_wins emptyOptions "size" ["abc", "2"] (by decide) (by decide)⟩

/-- C12 fails on the code: with zero defaults, on `width=1&height=2` and on
`size=1` the result has Fit true, where the rows of `TestParseFormValues`
expect `Options{Width: 1, Height: 2}` and `Options{Width: 1, Height: 1}` with
Fit false. -/
theorem C12_fit_set_on_positive_width_and_height :
    ParseFormValues [("width", ["1"]), ("height", ["2"])] (emptyOptions : Options Float64)
        = { (emptyOptions : Options Float64) with
            Width := f64 "1", Height := f64 "2", Fit := true }
      ∧ ParseFormValues [("width", ["1"]), ("height", ["2"])] (emptyOptions : Options Float64)
        ≠ { (emptyOptions : Options Float64) with Width := f64 "1", Height := f64 "2" }
      ∧ ParseFormValues [("size", ["1"])] (emptyOptions : Options Float64)
        = { (emptyOptions : Options Float64) with
            Width := f64 "1", Height := f64 "1", Fit := true }
      ∧ ParseFormValues [("size", ["1"])] (emptyOptions : Options Float64)
        ≠ { (emptyOptions : Options Float64) with Width := f64 "1", Height := f64 "1" } := by
  decide

end Imageproxy

/-! ## Tokens that fail to parse -/

namespace Imageproxy

open Go

variable {F : Type} [Float64Ops F]

/-- The legacy parser processes the tokens of a comma-join one after the
other. -/
theorem ParseOptions_Join (toks : List String) (h : ∀ t ∈ toks, ',' ∉ t.data) :
    (ParseOptions (strings.Join toks ",") : Options F) = toks.foldl parseOpt emptyOptions := by
  cases toks with
  | nil =>
    have hs : strings.Split (strings.Join [] ",") ',' = [""] := rfl
    unfold ParseOptions
    rw [hs]
    simp [parseOpt, len_eq_zero_iff]
  | cons a l =>
    unfold ParseOptions
    rw [Split_Join _ (by simp) h]

/-- An unknown literal changes no field. -/
theorem parseOpt_unknown (acc : Options F) (t : String) (h : UnknownLiteral F t) :
    parseOpt acc t = acc := by
  obtain ⟨hlit, hpre, hx, hf⟩ := h
  simp only [List.mem_cons, List.mem_singleton, List.not_mem_nil, or_false, not_or] at hlit
  obtain ⟨l1, l2, l3, l4, l5, l6, l7, l8⟩ := hlit
  have p1 := hpre optRotatePrefix (by simp)
  have p2 := hpre optQualityPrefix (by simp)
  have p3 := hpre optSignaturePrefix (by simp)
  have p4 := hpre optCropX (by simp)
  have p5 := hpre optCropY (by simp)
  have p6 := hpre optCropWidth (by simp)
  have p7 := hpre optCropHeight (by simp)
  unfold parseOpt
  by_cases h0 : len t = 0
  · rw [if_pos h0]
  · rw [if_neg h0, if_neg l1, if_neg l2, if_neg l3, if_neg l4, if_neg (by simp [l5, l6, l7]), if_neg l8,
      if_neg (by simp [p1]), if_neg (by simp [p2]), if_neg (by simp [p3]), if_neg (by simp [p4]),
      if_neg (by simp [p5]), if_neg (by simp [p6]), if_neg (by simp [p7]), if_neg (by simp [hx])]
    simp [hf]

/-- Two tokens with the same effect on every state can be exchanged inside a
token list. -/
theorem ParseOptions_exchange (xs ys : List String) (t t' : String)
    (hxs : ∀ x ∈ xs, ',' ∉ x.data) (hys : ∀ y ∈ ys, ',' ∉ y.data)
    (ht : ',' ∉ t.data) (ht' : ',' ∉ t'.data)
    (h : ∀ acc : Options F, parseOpt acc t = parseOpt acc t') :
    (ParseOptions (strings.Join (xs ++ t :: ys) ",") : Options F)
      = ParseOptions (strings.Join (xs ++ t' :: ys) ",") := by
  have h1 : ∀ z ∈ xs ++ t :: ys, ',' ∉ z.data := by
    intro z hz
    rcases List.mem_append.1 hz with hz | hz
    · exact hxs z hz
    · rcases List.mem_cons.1 hz with rfl | hz
      · exact ht
      · exact hys z hz
  have h2 : ∀ z ∈ xs ++ t' :: ys, ',' ∉ z.data := by
    intro z hz
    rcases List.mem_append.1 hz with hz | hz
    · exact hxs z hz
    · rcases List.mem_cons.1 hz with rfl | hz
      · exact ht'
      · exact hys z hz
  rw [ParseOptions_Join _ h1, ParseOptions_Join _ h2]
  simp only [List.foldl_append, List.foldl_cons, h]

/-- A token with no effect on any state can be dropped from a token list. -/
theorem ParseOptions_drop (xs ys : List String) (t : String)
    (hxs : ∀ x ∈ xs, ',' ∉ x.data) (hys : ∀ y ∈ ys, ',' ∉ y.data) (ht : ',' ∉ t.data)
    (h : ∀ acc : Options F, parseOpt acc t = acc) :
    (ParseOptions (strings.Join (xs ++ t :: ys) ",") : Options F)
      = ParseOptions (strings.Join (xs ++ ys) ",") := by
  have h1 : ∀ z ∈ xs ++ t :: ys, ',' ∉ z.data := by
    intro z hz
    rcases List.mem_append.1 hz with hz | hz
    · exact hxs z hz
    · rcases List.mem_cons.1 hz with rfl | hz
      · exact ht
      · exact hys z hz
  have h2 : ∀ z ∈ xs ++ ys, ',' ∉ z.data := by
    intro z hz
    rcases List.mem_append.1 hz with hz | hz
    · exact hxs z hz
    · exact hys z hz
  rw [ParseOptions_Join _ h1, ParseOptions_Join _ h2]
  simp only [List.foldl_append, List.foldl_cons, h]

theorem parseOpt_rotate_any (acc : Options F) (v : String) :
    parseOpt acc ("r" ++ v) = { acc with Rotate := (strconv.Atoi v).1 } := by
  have hd : ("r" ++ v).data = 'r' :: v.data := rfl
  simp [parseOpt, len_eq_zero_iff, String.ext_iff, strings.HasPrefix, strings.TrimPrefix, hd]

theorem parseOpt_quality_any (acc : Options F) (v : String) :
    parseOpt acc ("q" ++ v) = { acc with Quality := (strconv.Atoi v).1 } := by
  have hd : ("q" ++ v).data = 'q' :: v.data := rfl
  simp [parseOpt, len_eq_zero_iff, String.ext_iff, strings.HasPrefix, strings.TrimPrefix, hd]

end Imageproxy

namespace Imageproxy

open Go

variable {F : Type} [Float64Ops F]

/-- C20, as stated, fails: in `r90,rx` the token `rx` has a bad number, and it
is not dropped: it sets the rotation back to 0, while `r90` alone gives 90. -/
theorem C20_counterexample_bad_number_overwrites :
    strings.Join (["r90"] ++ "rx" :: []) "," = "r90,rx"
      ∧ strings.Join (["r90"] ++ []) "," = "r90"
      ∧ (ParseOptions "r90,rx" : Options Float64).Rotate = 0
      ∧ (ParseOptions "r90" : Options Float64).Rotate = 90 := by
  decide

/-- C20, amended: a token that fails to parse never aborts the parsing of the
other tokens.  For all comma-free token lists `xs`, `ys`: an unknown literal
`t` is dropped and affects no field; a token `r...` or `q...` whose number
`Atoi` rejects with value 0, a syntax error, acts as `r0` or `q0`, and a token
`cx...`, `cy...`,
`cw...` or `ch...` whose number `ParseFloat` rejects with the value of `0` acts
as `cx0`, `cy0`, `cw0` or `ch0`: it overwrites its own field with 0 and affects
no other field. -/
theorem C20_bad_token_never_aborts (xs ys : List String) (t v : String)
    (hxs : ∀ x ∈ xs, ',' ∉ x.data) (hys : ∀ y ∈ ys, ',' ∉ y.data)
    (ht : ',' ∉ t.data) (hv : ',' ∉ v.data) :
    (UnknownLiteral F t →
        (ParseOptions (strings.Join (xs ++ t :: ys) ",") : Options F)
          = ParseOptions (strings.Join (xs ++ ys) ","))
      ∧ (strconv.Atoi v = (0, false) →
        (ParseOptions (strings.Join (xs ++ ("r" ++ v) :: ys) ",") : Options F)
            = ParseOptions (strings.Join (xs ++ "r0" :: ys) ",")
          ∧ (ParseOptions (strings.Join (xs ++ ("q" ++ v) :: ys) ",") : Options F)
            = ParseOptions (strings.Join (xs ++ "q0" :: ys) ","))
      ∧ ((Float64Ops.parseFloat v : F × Bool).2 = false
          ∧ (Float64Ops.parseFloat v : F × Bool).1 = (Float64Ops.parseFloat "0" : F × Bool).1 →
        (ParseOptions (strings.Join (xs ++ ("cx" ++ v) :: ys) ",") : Options F)
            = ParseOptions (strings.Join (xs ++ "cx0" :: ys) ",")
          ∧ (ParseOptions (strings.Join (xs ++ ("cy" ++ v) :: ys) ",") : Options F)
            = ParseOptions (strings.Join (xs ++ "cy0" :: ys) ",")
          ∧ (ParseOptions (strings.Join (xs ++ ("cw" ++ v) :: ys) ",") : Options F)
            = ParseOptions (strings.Join (xs ++ "cw0" :: ys) ",")
          ∧ (ParseOptions (strings.Join (xs ++ ("ch" ++ v) :: ys) ",") : Options F)
            = ParseOptions (strings.Join (xs ++ "ch0" :: ys) ",")) := by
  have hpre : ∀ p : String, ',' ∉ p.data → ',' ∉ (p ++ v).data := by
    intro p hp
    simp [String.data_append, hp, hv]
  have h0 : strconv.Atoi "0" = (0, true) := by decide
  refine ⟨fun hu => ParseOptions_drop xs ys t hxs hys ht (fun acc => parseOpt_unknown acc t hu),
    fun ha => ⟨?_, ?_⟩, fun hf => ⟨?_, ?_, ?_, ?_⟩⟩
  · refine ParseOptions_exchange xs ys _ _ hxs hys (hpre "r" (by decide)) (by decide) ?_
    intro acc
    rw [parseOpt_rotate_any, show ("r0" : String) = "r" ++ "0" from rfl, parseOpt_rotate_any,
      ha, h0]
  · refine ParseOptions_exchange xs ys _ _ hxs hys (hpre "q" (by decide)) (by decide) ?_
    intro acc
    rw [parseOpt_quality_any, show ("q0" : String) = "q" ++ "0" from rfl, parseOpt_quality_any,
      ha, h0]
  · refine ParseOptions_exchange xs ys _ _ hxs hys (hpre "cx" (by decide)) (by decide) ?_
    intro acc
    rw [parseOpt_cx, show ("cx0" : String) = "cx" ++ "0" from rfl, parseOpt_cx, hf.2]
  · refine ParseOptions_exchange xs ys _ _ hxs hys (hpre "cy" (by decide)) (by decide) ?_
    intro acc
    rw [parseOpt_cy, show ("cy0" : String) = "cy" ++ "0" from rfl, parseOpt_cy, hf.2]
  · refine ParseOptions_exchange xs ys _ _ hxs hys (hpre "cw" (by decide)) (by decide) ?_
    intro acc
    rw [parseOpt_cw, show ("cw0" : String) = "cw" ++ "0" from rfl, parseOpt_cw, hf.2]
  · refine ParseOptions_exchange xs ys _ _ hxs hys (hpre "ch" (by decide)) (by decide) ?_
    intro acc
    rw [parseOpt_ch, show ("ch0" : String) = "ch" ++ "0" from rfl, parseOpt_ch, hf.2]

/-- Witness of C20 on the tokens `1x2`, `r90` before and `fit` after: the
unknown literal `foo` is dropped, and `rabc` acts as `r0`. -/
theorem C20_witness :
    (ParseOptions (strings.Join (["1x2", "r90"] ++ "foo" :: ["fit"]) ",") : Options Float64)
        = ParseOptions (strings.Join (["1x2", "r90"] ++ ["fit"]) ",")
      ∧ (ParseOptions (strings.Join (["1x2", "r90"] ++ ("r" ++ "abc") :: ["fit"]) ",")
          : Options Float64)
        = ParseOptions (strings.Join (["1x2", "r90"] ++ "r0" :: ["fit"]) ",")
      ∧ (ParseOptions (strings.Join (["1x2", "r90"] ++ ("cx" ++ "abc") :: ["fit"]) ",")
          : Options Float64)
        = ParseOptions (strings.Join (["1x2", "r90"] ++ "cx0" :: ["fit"]) ",") :=
  ⟨(C20_bad_token_never_aborts ["1x2", "r90"] ["fit"] "foo" "abc" (by decide) (by decide)
      (by decide) (by decide)).1 (by decide),
    ((C20_bad_token_never_aborts ["1x2", "r90"] ["fit"] "foo" "abc" (by decide) (by decide)
      (by decide) (by decide)).2.1 (by decide)).1,
    ((C20_bad_token_never_aborts ["1x2", "r90"] ["fit"] "foo" "abc" (by decide) (by decide)
      (by decide) (by decide)).2.2 (by decide)).1⟩

end Imageproxy

/-! ## The prefix matcher -/

namespace Imageproxy

open Go

variable {F : Type}

/-- The state of the loop of `bestMatchingConfig` after visiting `l`: either
no entry of `l` matches and the state is the initial one, or the state holds
an entry of `l` that matches and whose trimmed length is maximal among the
matching entries. -/
theorem bestMatch_invariant (p : String) (l : List (String × Option (SourceConfiguration F))) :
    (l.foldl (bestMatchStep p) (-1, "", none) = (-1, "", none)
        ∧ ∀ e ∈ l, strings.HasPrefix p (strings.TrimRight e.1 '/') = false)
      ∨ ∃ e ∈ l, strings.HasPrefix p (strings.TrimRight e.1 '/') = true
          ∧ l.foldl (bestMatchStep p) (-1, "", none)
            = (((len (strings.TrimRight e.1 '/') : Nat) : Int), e.1, e.2)
          ∧ ∀ e' ∈ l, strings.HasPrefix p (strings.TrimRight e'.1 '/') = true →
              len (strings.TrimRight e'.1 '/') ≤ len (strings.TrimRight e.1 '/') := by
  induction l using List.reverseRecOn with
  | nil => exact Or.inl ⟨rfl, by simp⟩
  | append_singleton l a ih =>
    rw [List.foldl_append, List.foldl_cons, List.foldl_nil]
    by_cases ha : strings.HasPrefix p (strings.TrimRight a.1 '/') = true
    · rcases ih with ⟨hst, hno⟩ | ⟨e, he, hm, hst, hmax⟩
      · refine Or.inr ⟨a, by simp, ha, ?_, ?_⟩
        · rw [hst]
          unfold bestMatchStep
          simp only [ha, if_true]
          rw [if_neg (by omega)]
        · intro e' he' hm'
          rcases List.mem_append.1 he' with h | h
          · rw [hno e' h] at hm'
            exact absurd hm' (by simp)
          · simp only [List.mem_singleton] at h
            rw [h]
      · by_cases hlt : len (strings.TrimRight a.1 '/') < len (strings.TrimRight e.1 '/')
        · refine Or.inr ⟨e, by simp [he], hm, ?_, ?_⟩
          · rw [hst]
            unfold bestMatchStep
            simp only [ha, if_true]
            rw [if_pos (by omega)]
          · intro e' he' hm'
            rcases List.mem_append.1 he' with h | h
            · exact hmax e' h hm'
            · simp only [List.mem_singleton] at h
              rw [h]
              omega
        · refine Or.inr ⟨a, by simp, ha, ?_, ?_⟩
          · rw [hst]
            unfold bestMatchStep
            simp only [ha, if_true]
            rw [if_neg (by omega)]
          · intro e' he' hm'
            rcases List.mem_append.1 he' with h | h
            · have := hmax e' h hm'
              omega
            · simp only [List.mem_singleton] at h
              rw [h]
    · have hstep : ∀ st, bestMatchStep p st a = st := by
        intro st
        unfold bestMatchStep
        simp only [ha]
        rfl
      rw [hstep]
      rcases ih with ⟨hst, hno⟩ | ⟨e, he, hm, hst, hmax⟩
      · refine Or.inl ⟨hst, ?_⟩
        intro e' he'
        rcases List.mem_append.1 he' with h | h
        · exact hno e' h
        · simp only [List.mem_singleton] at h
          rw [h]
          simpa using ha
      · refine Or.inr ⟨e, by simp [he], hm, hst, ?_⟩
        intro e' he' hm'
        rcases List.mem_append.1 he' with h | h
        · exact hmax e' h hm'
        · simp only [List.mem_singleton] at h
          rw [h] at hm'
          exact absurd hm' ha

end Imageproxy

namespace Imageproxy

open Go

variable {F : Type}

/-- C13: longest prefix wins.  For a registry of non-nil configurations,
`bestMatchingConfig` returns a configuration exactly when some registered
prefix, its trailing slashes trimmed, is a prefix of the escaped path; the
returned entry is then a registered one whose trimmed prefix is a prefix of
the path and has the greatest length among all such entries. -/
theorem C13_longest_prefix_wins (lib : URLLib)
    (reg : List (String × Option (SourceConfiguration F))) (u : URL)
    (hnn : ∀ e ∈ reg, e.2 ≠ none) :
    ((bestMatchingConfig lib reg u).2 ≠ none
        ↔ ∃ e ∈ reg, strings.HasPrefix (lib.EscapedPath u) (strings.TrimRight e.1 '/') = true)
      ∧ ((bestMatchingConfig lib reg u).2 ≠ none →
          bestMatchingConfig lib reg u ∈ reg
            ∧ strings.HasPrefix (lib.EscapedPath u)
                (strings.TrimRight (bestMatchingConfig lib reg u).1 '/') = true
            ∧ ∀ e ∈ reg,
                strings.HasPrefix (lib.EscapedPath u) (strings.TrimRight e.1 '/') = true →
                len (strings.TrimRight e.1 '/')
                  ≤ len (strings.TrimRight (bestMatchingConfig lib reg u).1 '/')) := by
  rcases bestMatch_invariant (lib.EscapedPath u) reg with ⟨hst, hno⟩ | ⟨e, he, hm, hst, hmax⟩
  · have hr : bestMatchingConfig lib reg u = ("", none) := by
      unfold bestMatchingConfig
      rw [hst]
    rw [hr]
    refine ⟨⟨fun h => absurd rfl h, ?_⟩, fun h => absurd rfl h⟩
    rintro ⟨e, he, hm⟩
    rw [hno e he] at hm
    exact absurd hm (by simp)
  · have hr : bestMatchingConfig lib reg u = e := by
      unfold bestMatchingConfig
      rw [hst]
    rw [hr]
    exact ⟨⟨fun _ => ⟨e, he, hm⟩, fun _ => hnn e he⟩, fun _ => ⟨he, hm, hmax⟩⟩

/-- Witness of C13: with `/a/` and `/a/b/` registered, the path `/a/b/http://x`
selects `/a/b/`, in either visiting order. -/
theorem C13_witness :
    bestMatchingConfig netURL nestedRegistry (inboundURL "/a/b/http://x" "")
        = ("/a/b/", some widthOneConfig)
      ∧ bestMatchingConfig netURL nestedRegistry.reverse (inboundURL "/a/b/http://x" "")
        = ("/a/b/", some widthOneConfig)
      ∧ ((bestMatchingConfig netURL nestedRegistry (inboundURL "/a/b/http://x" "")).2 ≠ none
        ↔ ∃ e ∈ nestedRegistry,
            strings.HasPrefix (netURL.EscapedPath (inboundURL "/a/b/http://x" ""))
              (strings.TrimRight e.1 '/') = true) :=
  ⟨by decide, by decide,
    (C13_longest_prefix_wins netURL nestedRegistry (inboundURL "/a/b/http://x" "")
      (by decide)).1⟩

/-- C14, as stated, fails: with `/a` and `/a/` registered with different
configurations, both match the path `/a/x` with trimmed length 2, the greatest
among the matches, and the two visiting orders give different results. -/
theorem C14_counterexample_tie_follows_visiting_order :
    bestMatchingConfig netURL tiedRegistry (inboundURL "/a/x" "")
        = ("/a/", some widthOneConfig)
      ∧ bestMatchingConfig netURL tiedRegistry.reverse (inboundURL "/a/x" "")
        = ("/a", some plainConfig)
      ∧ tiedRegistry.reverse.Perm tiedRegistry := by
  decide

/-- C14, amended: when the registry has no two distinct entries that match the
path with the greatest trimmed length among the matching entries, any two
visiting orders of the registry make `bestMatchingConfig` return the same
prefix and configuration.  Ties among shorter matching prefixes are allowed. -/
theorem C14_order_independent_when_longest_match_unique (lib : URLLib)
    (reg reg2 : List (String × Option (SourceConfiguration F))) (u : URL)
    (hperm : reg.Perm reg2)
    (huniq : ∀ a ∈ reg, ∀ b ∈ reg,
      strings.HasPrefix (lib.EscapedPath u) (strings.TrimRight a.1 '/') = true →
      strings.HasPrefix (lib.EscapedPath u) (strings.TrimRight b.1 '/') = true →
      len (strings.TrimRight a.1 '/') = len (strings.TrimRight b.1 '/') →
      (∀ e ∈ reg, strings.HasPrefix (lib.EscapedPath u) (strings.TrimRight e.1 '/') = true →
        len (strings.TrimRight e.1 '/') ≤ len (strings.TrimRight a.1 '/')) →
      a = b) :
    bestMatchingConfig lib reg u = bestMatchingConfig lib reg2 u := by
  unfold bestMatchingConfig
  rcases bestMatch_invariant (lib.EscapedPath u) reg with ⟨hst, hno⟩ | ⟨e, he, hm, hst, hmax⟩
  · rcases bestMatch_invariant (lib.EscapedPath u) reg2 with
      ⟨hst2, _⟩ | ⟨e2, he2, hm2, _, _⟩
    · rw [hst, hst2]
    · rw [hno e2 (hperm.mem_iff.2 he2)] at hm2
      exact absurd hm2 (by simp)
  · rcases bestMatch_invariant (lib.EscapedPath u) reg2 with
      ⟨_, hno2⟩ | ⟨e2, he2, hm2, hst2, hmax2⟩
    · rw [hno2 e (hperm.mem_iff.1 he)] at hm
      exact absurd hm (by simp)
    · have h1 := hmax e2 (hperm.mem_iff.2 he2) hm2
      have h2 := hmax2 e (hperm.mem_iff.1 he) hm
      have hee : e = e2 := huniq e he e2 (hperm.mem_iff.2 he2) hm hm2 (by omega) hmax
      rw [hst, hst2, hee]

/-- Witness of C14 on the registry with `/a`, `/a/` and `/a/b` and the path
`/a/b/x`: the two shorter prefixes tie, the longest match is unique, and the
registry and its reverse give `/a/b`. -/
theorem C14_witness :
    tiedBelowRegistry.Perm tiedBelowRegistry.reverse
      ∧ bestMatchingConfig netURL tiedBelowRegistry (inboundURL "/a/b/x" "")
        = ("/a/b", some plainConfig)
      ∧ bestMatchingConfig netURL tiedBelowRegistry (inboundURL "/a/b/x" "")
        = bestMatchingConfig netURL tiedBelowRegistry.reverse (inboundURL "/a/b/x" "") :=
  ⟨by decide, by decide,
    C14_order_independent_when_longest_match_unique netURL tiedBelowRegistry
      tiedBelowRegistry.reverse (inboundURL "/a/b/x" "") (by decide) (by decide)⟩

end Imageproxy

/-! ## Stripping the prefix and cleaning the remote URL -/

namespace Imageproxy

open Go

variable {F : Type}

theorem TrimRight_append_slash (q : String) :
    strings.TrimRight (q ++ "/") '/' = strings.TrimRight q '/' := by
  unfold strings.TrimRight
  simp [String.data_append]

theorem bestMatchingConfig_singleton (lib : URLLib) (q : String)
    (c : Option (SourceConfiguration F)) (u : URL) :
    bestMatchingConfig lib [(q, c)] u
      = if strings.HasPrefix (lib.EscapedPath u) (strings.TrimRight q '/') then (q, c)
        else ("", none) := by
  unfold bestMatchingConfig
  simp only [List.foldl_cons, List.foldl_nil, bestMatchStep]
  by_cases h : strings.HasPrefix (lib.EscapedPath u) (strings.TrimRight q '/') = true
  · have hlt : ¬ (((len (strings.TrimRight q '/') : Nat) : Int) < -1) := by omega
    rw [if_pos h, if_pos h, if_neg hlt]
  · rw [if_neg h, if_neg h]

/-- The function `buildFinalAbsoluteURL` in terms of the text it hands to
`parseURL`. -/
theorem buildFinalAbsoluteURL_parseURLArgument (lib : URLLib)
    (reg : List (String × Option (SourceConfiguration F))) (u : URL) :
    buildFinalAbsoluteURL lib reg u
      = match parseURLArgument lib reg u with
        | none => Outcome.panic
        | some s =>
          match (bestMatchingConfig lib reg u).2.bind (fun c => c.BaseURL), parseURL lib s with
          | some base, some finalURL => Outcome.ok (lib.ResolveReference base finalURL)
          | some _, none => Outcome.panic
          | none, some finalURL => Outcome.ok finalURL
          | none, none => Outcome.error Error.parse := by
  unfold buildFinalAbsoluteURL parseURLArgument
  cases sliceFrom (lib.EscapedPath u) 1 with
  | none => rfl
  | some path =>
    simp only []
    rcases hb : bestMatchingConfig lib reg u with ⟨m, _ | config⟩
    · simp only [Option.bind]
      cases parseURL lib path <;> rfl
    · simp only [Option.bind]

end Imageproxy

namespace Imageproxy

open Go

variable {F : Type}

/-- C15: a registered prefix behaves the same with and without its trailing
slash.  For every prefix `q` (whether or not it ends in a slash), every
configuration `c`, nil included, and every inbound URL, the text that
`buildFinalAbsoluteURL` hands to `parseURL`, and the URL, error or panic it
ends with, are the same for the registry with the one entry `q` and for the
registry with the one entry `q + "/"`. -/
theorem C15_trailing_slash_of_prefix_irrelevant (lib : URLLib) (q : String)
    (c : Option (SourceConfiguration F)) (u : URL) :
    parseURLArgument lib [(q, c)] u = parseURLArgument lib [(q ++ "/", c)] u
      ∧ buildFinalAbsoluteURL lib [(q, c)] u = buildFinalAbsoluteURL lib [(q ++ "/", c)] u := by
  have key : parseURLArgument lib [(q, c)] u = parseURLArgument lib [(q ++ "/", c)] u
      ∧ (bestMatchingConfig lib [(q, c)] u).2 = (bestMatchingConfig lib [(q ++ "/", c)] u).2 := by
    unfold parseURLArgument
    rw [bestMatchingConfig_singleton, bestMatchingConfig_singleton, TrimRight_append_slash]
    by_cases h : strings.HasPrefix (lib.EscapedPath u) (strings.TrimRight q '/') = true
    · rw [if_pos h, if_pos h]
      cases c with
      | none => exact ⟨rfl, rfl⟩
      | some config =>
        simp only [TrimRight_append_slash]
        trivial
    · rw [if_neg h, if_neg h]
      exact ⟨rfl, rfl⟩
  refine ⟨key.1, ?_⟩
  rw [buildFinalAbsoluteURL_parseURLArgument, buildFinalAbsoluteURL_parseURLArgument,
    key.1, key.2]

end Imageproxy

namespace Imageproxy

open Go

theorem dropWhile_slash_replicate (k : Nat) (c : Char) (cs : List Char) (hc : c ≠ '/') :
    (List.replicate k '/' ++ c :: cs).dropWhile (fun d => d == '/') = c :: cs := by
  induction k with
  | zero => simp [List.dropWhile_cons, hc]
  | succ k ih => simpa [List.replicate_succ, List.dropWhile_cons] using ih

theorem dropWhile_slash_eq_cons (t : List Char) (c : Char) (rest : List Char)
    (h : t.dropWhile (fun d => d == '/') = c :: rest) :
    c ≠ '/' ∧ ∃ k, t = List.replicate k '/' ++ c :: rest := by
  induction t with
  | nil => simp at h
  | cons a t ih =>
    by_cases ha : a = '/'
    · subst ha
      rw [List.dropWhile_cons, if_pos (by simp)] at h
      obtain ⟨hc, k, hk⟩ := ih h
      exact ⟨hc, k + 1, by rw [hk]; rfl⟩
    · rw [List.dropWhile_cons, if_neg (by simp [ha])] at h
      simp only [List.cons.injEq] at h
      obtain ⟨rfl, rfl⟩ := h
      exact ⟨ha, 0, rfl⟩

theorem matchScheme_some (s sch t : List Char) (h : matchScheme s = some (sch, t)) :
    (sch = "http".data ∨ sch = "https".data) ∧ s = sch ++ ':' :: t := by
  unfold matchScheme at h
  by_cases h1 : "https:".data.isPrefixOf s = true
  · rw [if_pos h1] at h
    simp only [Option.some.injEq, Prod.mk.injEq] at h
    obtain ⟨rfl, rfl⟩ := h
    obtain ⟨r, rfl⟩ := List.isPrefixOf_iff_prefix.1 h1
    exact ⟨Or.inr rfl, rfl⟩
  · rw [if_neg h1] at h
    by_cases h2 : "http:".data.isPrefixOf s = true
    · rw [if_pos h2] at h
      simp only [Option.some.injEq, Prod.mk.injEq] at h
      obtain ⟨rfl, rfl⟩ := h
      obtain ⟨r, rfl⟩ := List.isPrefixOf_iff_prefix.1 h2
      exact ⟨Or.inl rfl, rfl⟩
    · rw [if_neg h2] at h
      exact absurd h (by simp)

theorem matchSlashes_some (t : List Char) (c : Char) (rest : List Char)
    (h : matchSlashes t = some (c, rest)) :
    c ≠ '/' ∧ ∃ k, t = List.replicate (k + 1) '/' ++ c :: rest := by
  unfold matchSlashes at h
  split at h
  · rename_i t2
    split at h
    · rename_i c2 rest2 hd
      simp only [Option.some.injEq, Prod.mk.injEq] at h
      obtain ⟨rfl, rfl⟩ := h
      obtain ⟨hc, k, hk⟩ := dropWhile_slash_eq_cons t2 _ _ hd
      exact ⟨hc, k, by rw [hk]; rfl⟩
    · exact absurd h (by simp)
  · exact absurd h (by simp)

theorem matchSlashes_replicate (k : Nat) (c : Char) (cs : List Char) (hc : c ≠ '/') :
    matchSlashes (List.replicate (k + 1) '/' ++ c :: cs) = some (c, cs) := by
  show matchSlashes ('/' :: (List.replicate k '/' ++ c :: cs)) = some (c, cs)
  unfold matchSlashes
  simp only [dropWhile_slash_replicate k c cs hc]

end Imageproxy

namespace Imageproxy

open Go

theorem cleanURL_of_run (sch : List Char) (k : Nat) (c : Char) (cs : List Char)
    (hs : sch = "http".data ∨ sch = "https".data) (hc : c ≠ '/') :
    cleanURL (String.mk (sch ++ ':' :: (List.replicate (k + 1) '/' ++ c :: cs)))
      = String.mk (sch ++ "://".data ++ c :: cs) := by
  have hm : matchScheme (sch ++ ':' :: (List.replicate (k + 1) '/' ++ c :: cs))
      = some (sch, List.replicate (k + 1) '/' ++ c :: cs) := by
    rcases hs with rfl | rfl <;> rfl
  unfold cleanURL
  simp only [hm, matchSlashes_replicate k c cs hc]

theorem cleanURL_changed (s : String) (h : cleanURL s ≠ s) :
    ∃ (sch : List Char) (k : Nat) (c : Char) (cs : List Char),
      (sch = "http".data ∨ sch = "https".data) ∧ c ≠ '/'
        ∧ s.data = sch ++ ':' :: (List.replicate (k + 1) '/' ++ c :: cs) := by
  unfold cleanURL at h
  cases hm : matchScheme s.data with
  | none => rw [hm] at h; exact absurd rfl h
  | some p =>
    obtain ⟨sch, t⟩ := p
    rw [hm] at h
    simp only [] at h
    cases hsl : matchSlashes t with
    | none => rw [hsl] at h; exact absurd rfl h
    | some p2 =>
      obtain ⟨c, cs⟩ := p2
      obtain ⟨hs, hd⟩ := matchScheme_some _ _ _ hm
      obtain ⟨hc, k, hk⟩ := matchSlashes_some _ _ _ hsl
      exact ⟨sch, k, c, cs, hs, hc, by rw [hd, hk]⟩

end Imageproxy

namespace Imageproxy

open Go

/-- C16: slash normalization, the rewrite `parseURL` applies before parsing.
For a scheme `http` or `https`, at least one slash and a non-empty rest whose
first character is not a slash, the text scheme, colon, slashes, rest is
rewritten to scheme, `://`, rest; every text not of that shape is left
unchanged. -/
theorem C16_slash_normalization (scheme rest s : String) (n : Nat) :
    ((scheme = "http" ∨ scheme = "https") → 1 ≤ n → rest ≠ "" → rest.data.head? ≠ some '/' →
        cleanURL (scheme ++ ":" ++ String.mk (List.replicate n '/') ++ rest)
          = scheme ++ "://" ++ rest)
      ∧ ((¬ ∃ (scheme2 rest2 : String) (m : Nat),
            (scheme2 = "http" ∨ scheme2 = "https") ∧ 1 ≤ m ∧ rest2 ≠ ""
              ∧ rest2.data.head? ≠ some '/'
              ∧ s = scheme2 ++ ":" ++ String.mk (List.replicate m '/') ++ rest2) →
          cleanURL s = s) := by
  constructor
  · intro hs hn hne hfirst
    obtain ⟨k, rfl⟩ : ∃ k, n = k + 1 := ⟨n - 1, by omega⟩
    obtain ⟨c, cs, hrest⟩ : ∃ c cs, rest.data = c :: cs := by
      cases hr : rest.data with
      | nil => exact absurd (String.ext_iff.2 hr) hne
      | cons c cs => exact ⟨c, cs, rfl⟩
    have hc : c ≠ '/' := by
      intro hc
      rw [hrest, hc] at hfirst
      exact hfirst rfl
    have hsch : scheme.data = "http".data ∨ scheme.data = "https".data := by
      rcases hs with rfl | rfl
      · exact Or.inl rfl
      · exact Or.inr rfl
    have e1 : scheme ++ ":" ++ String.mk (List.replicate (k + 1) '/') ++ rest
        = String.mk (scheme.data ++ ':' :: (List.replicate (k + 1) '/' ++ c :: cs)) := by
      apply String.ext_iff.2
      simp only [String.data_append, hrest, List.append_assoc]
      rfl
    have e2 : scheme ++ "://" ++ rest = String.mk (scheme.data ++ "://".data ++ c :: cs) := by
      apply String.ext_iff.2
      simp only [String.data_append, hrest]
    rw [e1, e2]
    exact cleanURL_of_run scheme.data k c cs hsch hc
  · intro hshape
    by_contra hne
    obtain ⟨sch, k, c, cs, hs, hc, hd⟩ := cleanURL_changed s hne
    refine hshape ⟨String.mk sch, String.mk (c :: cs), k + 1, ?_, by omega, ?_, ?_, ?_⟩
    · rcases hs with rfl | rfl
      · exact Or.inl rfl
      · exact Or.inr rfl
    · intro h
      exact absurd (congrArg String.data h) (by simp)
    · simp [hc]
    · apply String.ext_iff.2
      simp only [String.data_append, hd, List.append_assoc]
      rfl

/-- Witness of C16: `http:///example.com/foo`, `http:/example.com/foo` and
`http://example.com/foo` all become `http://example.com/foo`, and
`ftp:/example.com/foo` is left unchanged. -/
theorem C16_witness :
    cleanURL "http:///example.com/foo" = "http://example.com/foo"
      ∧ cleanURL "http:/example.com/foo" = "http://example.com/foo"
      ∧ cleanURL "http://example.com/foo" = "http://example.com/foo"
      ∧ cleanURL "ftp:/example.com/foo" = "ftp:/example.com/foo" :=
  ⟨(C16_slash_normalization "http" "example.com/foo" "ftp:/example.com/foo" 3).1
      (Or.inl rfl) (by decide) (by decide) (by decide),
    (C16_slash_normalization "http" "example.com/foo" "ftp:/example.com/foo" 1).1
      (Or.inl rfl) (by decide) (by decide) (by decide),
    (C16_slash_normalization "http" "example.com/foo" "ftp:/example.com/foo" 2).1
      (Or.inl rfl) (by decide) (by decide) (by decide),
    (C16_slash_normalization "http" "example.com/foo" "ftp:/example.com/foo" 3).2 (by
      rintro ⟨scheme2, rest2, m, hs | hs, _, _, _, h⟩
      · subst hs
        have h2 := congrArg (fun x => x.data.head?) h
        simp [String.data_append] at h2
      · subst hs
        have h2 := congrArg (fun x => x.data.head?) h
        simp [String.data_append] at h2)⟩

end Imageproxy

/-! ## Requests -/

namespace Imageproxy

open Go

variable {F : Type} [Float64Ops F]

/-- The checks of `NewRequest` on the URL that `buildFinalAbsoluteURL`
returned. -/
theorem NewRequest_of_ok (lib : URLLib) (r : HTTPRequest)
    (regA regB : List (String × Option (SourceConfiguration F))) (u : URL)
    (hb : buildFinalAbsoluteURL lib regA r.URL = Outcome.ok u) :
    NewRequest lib r regA regB
      = if !u.IsAbs then
          Outcome.error (Error.URLError "must provide absolute remote URL" r.URL)
        else if u.Scheme ≠ "http" ∧ u.Scheme ≠ "https" then
          Outcome.error (Error.URLError "remote URL must have http or https scheme" r.URL)
        else
          match r.Form with
          | none => Outcome.error Error.form
          | some form =>
            Outcome.ok { URL := { u with RawQuery := r.URL.RawQuery },
                         Options := ParseFormValues form
                           (match (bestMatchingConfig lib regB r.URL).2 with
                            | some config => config.DefaultOptions
                            | none => emptyOptions),
                         Original := r } := by
  unfold NewRequest
  rw [hb]

end Imageproxy

namespace Imageproxy

open Go

variable {F : Type} [Float64Ops F]

/-- C17 fails on the code: on the inbound paths
`/100x200/http://example.com/image.jpg` and `/1x2/http://example.com/foo`, with
an empty query and no source configuration, `NewRequest` returns the error
`must provide absolute remote URL` and no request, where the doc comment of
`NewRequest` and the rows of `TestNewRequest` expect the remote URL and the
options of the size token. -/
theorem C17_legacy_path_rejected :
    NewRequest netURL legacyRequest emptyRegistry emptyRegistry
        = Outcome.error (Error.URLError "must provide absolute remote URL" legacyRequest.URL)
      ∧ NewRequest netURL legacyTestRequest emptyRegistry emptyRegistry
        = Outcome.error
            (Error.URLError "must provide absolute remote URL" legacyTestRequest.URL) := by
  decide

/-- C18: when the URL that `buildFinalAbsoluteURL` resolved from the path is
not absolute, or its scheme is neither `http` nor `https`, `NewRequest` returns
a `URLError` that carries the URL of the inbound request, and no request. -/
theorem C18_relative_or_foreign_scheme_rejected (lib : URLLib) (r : HTTPRequest)
    (regA regB : List (String × Option (SourceConfiguration F))) (u : URL)
    (hb : buildFinalAbsoluteURL lib regA r.URL = Outcome.ok u)
    (hbad : u.IsAbs = false ∨ (u.Scheme ≠ "http" ∧ u.Scheme ≠ "https")) :
    NewRequest lib r regA regB
        = Outcome.error (Error.URLError
            (if u.IsAbs then "remote URL must have http or https scheme"
             else "must provide absolute remote URL") r.URL)
      ∧ ∀ req, NewRequest lib r regA regB ≠ Outcome.ok req := by
  have h : NewRequest lib r regA regB
      = Outcome.error (Error.URLError
          (if u.IsAbs then "remote URL must have http or https scheme"
           else "must provide absolute remote URL") r.URL) := by
    rw [NewRequest_of_ok lib r regA regB u hb]
    cases habs : u.IsAbs with
    | false => simp
    | true =>
      rcases hbad with hf | hs
      · rw [habs] at hf
        exact absurd hf (by simp)
      · simp [hs]
  refine ⟨h, ?_⟩
  intro req hreq
  rw [h] at hreq
  exact absurd hreq (by simp)

/-- Witness of C18: the paths `/`, `/example.com/foo` and
`/ftp://example.com/foo` are rejected. -/
theorem C18_witness :
    NewRequest netURL rootRequest emptyRegistry emptyRegistry
        = Outcome.error (Error.URLError "must provide absolute remote URL" rootRequest.URL)
      ∧ NewRequest netURL schemelessRequest emptyRegistry emptyRegistry
        = Outcome.error
            (Error.URLError "must provide absolute remote URL" schemelessRequest.URL)
      ∧ NewRequest netURL ftpRequest emptyRegistry emptyRegistry
        = Outcome.error
            (Error.URLError "remote URL must have http or https scheme" ftpRequest.URL) :=
  ⟨(C18_relative_or_foreign_scheme_rejected netURL rootRequest emptyRegistry emptyRegistry
      (inboundURL "" "") (by decide) (by decide)).1,
    (C18_relative_or_foreign_scheme_rejected netURL schemelessRequest emptyRegistry
      emptyRegistry (inboundURL "example.com/foo" "") (by decide) (by decide)).1,
    (C18_relative_or_foreign_scheme_rejected netURL ftpRequest emptyRegistry emptyRegistry
      ftpURL (by decide) (by decide)).1⟩

/-- C19: on every inbound request on which `NewRequest` succeeds, the raw
query of the returned remote URL is the raw query of the inbound request. -/
theorem C19_raw_query_passed_through (lib : URLLib) (r : HTTPRequest)
    (regA regB : List (String × Option (SourceConfiguration F))) (req : Request F)
    (h : NewRequest lib r regA regB = Outcome.ok req) :
    req.URL.RawQuery = r.URL.RawQuery := by
  cases hb : buildFinalAbsoluteURL lib regA r.URL with
  | panic =>
    unfold NewRequest at h
    rw [hb] at h
    exact absurd h (by simp)
  | error e =>
    unfold NewRequest at h
    rw [hb] at h
    exact absurd h (by simp)
  | ok u =>
    rw [NewRequest_of_ok lib r regA regB u hb] at h
    by_cases h1 : (!u.IsAbs) = true
    · rw [if_pos h1] at h
      exact absurd h (by simp)
    · rw [if_neg h1] at h
      by_cases h2 : u.Scheme ≠ "http" ∧ u.Scheme ≠ "https"
      · rw [if_pos h2] at h
        exact absurd h (by simp)
      · rw [if_neg h2] at h
        cases hf : r.Form with
        | none =>
          rw [hf] at h
          exact absurd h (by simp)
        | some form =>
          rw [hf] at h
          simp only [Outcome.ok.injEq] at h
          rw [← h]

/-- Witness of C19 on `GET /http://example.com/foo?bar=1&rotate=90`: the key
`bar`, which is no option, reaches the remote URL with the rest of the query. -/
theorem C19_witness :
    NewRequest netURL passThroughRequest emptyRegistry emptyRegistry
        = Outcome.ok passThroughResult
      ∧ passThroughResult.URL.RawQuery = "bar=1&rotate=90" :=
  ⟨by decide,
    C19_raw_query_passed_through netURL passThroughRequest emptyRegistry emptyRegistry
      passThroughResult (by decide)⟩

end Imageproxy

/-! ## Cleaning twice -/

namespace Imageproxy

open Go

/-- C25: slash normalization is idempotent.  For every text, applying the
rewrite of `parseURL` to its own output gives the same text as applying it
once. -/
theorem C25_slash_normalization_idempotent (s : String) :
    cleanURL (cleanURL s) = cleanURL s := by
  by_cases h : cleanURL s = s
  · rw [h, h]
  · obtain ⟨sch, k, c, cs, hs, hc, hd⟩ := cleanURL_changed s h
    have e1 : s = String.mk (sch ++ ':' :: (List.replicate (k + 1) '/' ++ c :: cs)) :=
      String.ext_iff.2 hd
    have e2 : cleanURL s = String.mk (sch ++ ':' :: (List.replicate (1 + 1) '/' ++ c :: cs)) := by
      rw [e1, cleanURL_of_run sch k c cs hs hc]
      apply String.ext_iff.2
      simp
    rw [e2, cleanURL_of_run sch 1 c cs hs hc]
    apply String.ext_iff.2
    simp

end Imageproxy

/-! ## Boolean flags under the query parameters -/

namespace Imageproxy

open Go

variable {F : Type} [Float64Ops F]

omit [Float64Ops F] in
theorem ite_state_pred (Q : Options F → Prop) (c : Prop) [Decidable c] (a b : Options F × Bool)
    (ha : Q a.1) (hb : Q b.1) : Q (if c then a else b).1 := by
  split <;> assumption

omit [Float64Ops F] in
theorem ite_options_pred (Q : Options F → Prop) (c : Prop) [Decidable c] (a b : Options F)
    (ha : Q a) (hb : Q b) : Q (if c then a else b) := by
  split <;> assumption

/-- One value of one key clears none of the flags and leaves `ScaleUp`. -/
theorem formValue_flags (k v : String) (st : Options F × Bool) :
    (st.1.Fit = true → (formValue k v st).1.Fit = true)
      ∧ (st.1.FlipVertical = true → (formValue k v st).1.FlipVertical = true)
      ∧ (st.1.FlipHorizontal = true → (formValue k v st).1.FlipHorizontal = true)
      ∧ (st.1.SmartCrop = true → (formValue k v st).1.SmartCrop = true)
      ∧ (formValue k v st).1.ScaleUp = st.1.ScaleUp := by
  refine ⟨?_, ?_, ?_, ?_, ?_⟩
  · intro h
    unfold formValue
    repeat' (first
      | exact h
      | rfl
      | apply ite_state_pred (fun o => o.Fit = true)
      | apply ite_options_pred (fun o => o.Fit = true))
  · intro h
    unfold formValue
    repeat' (first
      | exact h
      | rfl
      | apply ite_state_pred (fun o => o.FlipVertical = true)
      | apply ite_options_pred (fun o => o.FlipVertical = true))
  · intro h
    unfold formValue
    repeat' (first
      | exact h
      | rfl
      | apply ite_state_pred (fun o => o.FlipHorizontal = true)
      | apply ite_options_pred (fun o => o.FlipHorizontal = true))
  · intro h
    unfold formValue
    repeat' (first
      | exact h
      | rfl
      | apply ite_state_pred (fun o => o.SmartCrop = true)
      | apply ite_options_pred (fun o => o.SmartCrop = true))
  · unfold formValue
    repeat' (first
      | rfl
      | apply ite_state_pred (fun o => o.ScaleUp = st.1.ScaleUp)
      | apply ite_options_pred (fun o => o.ScaleUp = st.1.ScaleUp))

/-- The loops of `ParseFormValues` clear none of the flags and leave `ScaleUp`. -/
theorem formLoop_flags (form : List (String × List String)) (st : Options F × Bool) :
    (st.1.Fit = true → (formLoop form st).1.Fit = true)
      ∧ (st.1.FlipVertical = true → (formLoop form st).1.FlipVertical = true)
      ∧ (st.1.FlipHorizontal = true → (formLoop form st).1.FlipHorizontal = true)
      ∧ (st.1.SmartCrop = true → (formLoop form st).1.SmartCrop = true)
      ∧ (formLoop form st).1.ScaleUp = st.1.ScaleUp := by
  have inner : ∀ (k : String) (vs : List String) (st : Options F × Bool),
      (st.1.Fit = true → (vs.foldl (fun st value => formValue k value st) st).1.Fit = true)
        ∧ (st.1.FlipVertical = true →
            (vs.foldl (fun st value => formValue k value st) st).1.FlipVertical = true)
        ∧ (st.1.FlipHorizontal = true →
            (vs.foldl (fun st value => formValue k value st) st).1.FlipHorizontal = true)
        ∧ (st.1.SmartCrop = true →
            (vs.foldl (fun st value => formValue k value st) st).1.SmartCrop = true)
        ∧ (vs.foldl (fun st value => formValue k value st) st).1.ScaleUp = st.1.ScaleUp := by
    intro k vs
    induction vs with
    | nil => intro st; exact ⟨id, id, id, id, rfl⟩
    | cons v vs ih =>
      intro st
      obtain ⟨a1, a2, a3, a4, a5⟩ := formValue_flags k v st
      obtain ⟨b1, b2, b3, b4, b5⟩ := ih (formValue k v st)
      simp only [List.foldl_cons]
      exact ⟨fun h => b1 (a1 h), fun h => b2 (a2 h), fun h => b3 (a3 h), fun h => b4 (a4 h),
        b5.trans a5⟩
  induction form generalizing st with
  | nil => exact ⟨id, id, id, id, rfl⟩
  | cons kv form ih =>
    rw [formLoop_cons]
    obtain ⟨a1, a2, a3, a4, a5⟩ := inner kv.1 kv.2 st
    obtain ⟨b1, b2, b3, b4, b5⟩ :=
      ih (kv.2.foldl (fun st value => formValue kv.1 value st) st)
    exact ⟨fun h => b1 (a1 h), fun h => b2 (a2 h), fun h => b3 (a3 h), fun h => b4 (a4 h),
      b5.trans a5⟩

end Imageproxy

namespace Imageproxy

open Go

variable {F : Type} [Float64Ops F]

/-- C24: query parameters can set but never clear a boolean flag.  For every
form and all default options `d`, each of Fit, FlipVertical, FlipHorizontal and
SmartCrop that is true in `d` is true in `ParseFormValues(form, d)`, and
ScaleUp of the result equals ScaleUp of `d`. -/
theorem C24_flags_set_never_cleared (form : List (String × List String)) (d : Options F) :
    (d.Fit = true → (ParseFormValues form d).Fit = true)
      ∧ (d.FlipVertical = true → (ParseFormValues form d).FlipVertical = true)
      ∧ (d.FlipHorizontal = true → (ParseFormValues form d).FlipHorizontal = true)
      ∧ (d.SmartCrop = true → (ParseFormValues form d).SmartCrop = true)
      ∧ (ParseFormValues form d).ScaleUp = d.ScaleUp := by
  obtain ⟨a1, a2, a3, a4, a5⟩ := formLoop_flags form (d, false)
  rw [ParseFormValues_eq form d]
  refine ⟨fun h => ?_, a2, a3, a4, a5⟩
  rw [ParseFormValues_fit, a1 h]
  simp

/-- Witness of C24: with every flag set in the defaults, the query
`mode=crop&flip=none&fit=false&scaleUp=false&width=0` leaves every flag set. -/
theorem C24_witness :
    (ParseFormValues clearingForm allFlagsOptions).Fit = true
      ∧ (ParseFormValues clearingForm allFlagsOptions).FlipVertical = true
      ∧ (ParseFormValues clearingForm allFlagsOptions).FlipHorizontal = true
      ∧ (ParseFormValues clearingForm allFlagsOptions).SmartCrop = true
      ∧ (ParseFormValues clearingForm allFlagsOptions).ScaleUp = true :=
  ⟨(C24_flags_set_never_cleared clearingForm allFlagsOptions).1 (by decide),
    (C24_flags_set_never_cleared clearingForm allFlagsOptions).2.1 (by decide),
    (C24_flags_set_never_cleared clearingForm allFlagsOptions).2.2.1 (by decide),
    (C24_flags_set_never_cleared clearingForm allFlagsOptions).2.2.2.1 (by decide),
    (C24_flags_set_never_cleared clearingForm allFlagsOptions).2.2.2.2⟩

end Imageproxy

/-! ## The signature rule of the legacy parser -/

namespace Imageproxy

open Go

variable {F : Type} [Float64Ops F]

/-- C21, as stated, fails: the token `sc0ffee` starts with `sc`, and parsing
it sets Signature to `c0ffee`. -/
theorem C21_counterexample_sc_prefixed_signature :
    (ParseOptions "sc0ffee" : Options Float64)
        = { (emptyOptions : Options Float64) with Signature := "c0ffee" }
      ∧ (ParseOptions "sc0ffee" : Options Float64).Signature ≠ "" := by
  decide

/-- C21, amended: the signature rule applies to every token that starts with
`s` other than exactly `sc` and `scaleUp`.  For every text `v` without comma
other than `c` and `caleUp`, the token `s` followed by `v` sets Signature to
`v` and nothing else; the token `sc` sets SmartCrop and the token `scaleUp`
sets ScaleUp, and both leave Signature unset. -/
theorem C21_signature_rule_skips_only_sc_and_scaleUp (acc : Options F) (v : String)
    (hc : v ≠ "c") (hs : v ≠ "caleUp") (hcomma : ',' ∉ v.data) :
    parseOpt acc ("s" ++ v) = { acc with Signature := v }
      ∧ (ParseOptions ("s" ++ v) : Options F) = { (emptyOptions : Options F) with Signature := v }
      ∧ (ParseOptions "sc" : Options F) = { (emptyOptions : Options F) with SmartCrop := true }
      ∧ (ParseOptions "scaleUp" : Options F)
          = { (emptyOptions : Options F) with ScaleUp := true } := by
  have one : ∀ t : String, ',' ∉ t.data →
      (ParseOptions t : Options F) = parseOpt emptyOptions t := by
    intro t ht
    have h := ParseOptions_Join (F := F) [t] (by simpa using ht)
    have hj : strings.Join [t] "," = t := rfl
    rw [hj] at h
    rw [h]
    rfl
  have hsv : ',' ∉ ("s" ++ v).data := by
    have hd : ("s" ++ v).data = 's' :: v.data := rfl
    rw [hd]
    simp only [List.mem_cons, not_or]
    exact ⟨by decide, hcomma⟩
  refine ⟨parseOpt_signature acc v hc hs, ?_, ?_, ?_⟩
  · rw [one _ hsv, parseOpt_signature _ v hc hs]
  · rw [one "sc" (by decide), parseOpt_sc]
  · rw [one "scaleUp" (by decide), parseOpt_scaleUp]

/-- Witness of C21 on the tokens `sc0ffee` and `scx`. -/
theorem C21_witness :
    (ParseOptions "sc0ffee" : Options Float64)
        = { (emptyOptions : Options Float64) with Signature := "c0ffee" }
      ∧ parseOpt testOptions "scx" = { testOptions with Signature := "cx" } :=
  ⟨(C21_signature_rule_skips_only_sc_and_scaleUp emptyOptions "c0ffee" (by decide) (by decide)
      (by decide)).2.1,
    (C21_signature_rule_skips_only_sc_and_scaleUp testOptions "cx" (by decide) (by decide)
      (by decide)).1⟩

end Imageproxy

/-! ## Stripping the option keys from a query -/

namespace Go

theorem mapGet_append (pre rest : List (String × List String)) (k : String)
    (h : k ∉ pre.map Prod.fst) : mapGet (pre ++ rest) k = mapGet rest k := by
  induction pre with
  | nil => rfl
  | cons kv pre ih =>
    simp only [List.map_cons, List.mem_cons, not_or] at h
    have hne : ¬ kv.1 = k := fun e => h.1 e.symm
    show (if kv.1 = k then kv.2 else mapGet (pre ++ rest) k) = mapGet rest k
    rw [if_neg hne, ih h.2]

theorem mapSet_of_not_mem (m : List (String × List String)) (k : String) (v : List String)
    (h : k ∉ m.map Prod.fst) : mapSet m k v = m ++ [(k, v)] := by
  induction m with
  | nil => rfl
  | cons kv m ih =>
    simp only [List.map_cons, List.mem_cons, not_or] at h
    have hne : ¬ kv.1 = k := fun e => h.1 e.symm
    show (if kv.1 = k then (k, v) :: m else kv :: mapSet m k v) = kv :: m ++ [(k, v)]
    rw [if_neg hne, ih h.2]
    rfl

end Go

namespace Imageproxy

open Go

/-- The loop body of `StripOurOptions` skips exactly the option keys. -/
theorem stripKey_eq (values newValues : List (String × List String)) (key : String) :
    stripKey values newValues key
      = if key ∈ optionKeys then newValues else mapSet newValues key (mapGet values key) := by
  unfold stripKey
  by_cases h : key ∈ optionKeys
  · rw [if_pos h]
    simp only [optionKeys, List.mem_cons, List.mem_singleton, List.not_mem_nil, or_false] at h
    rcases h with h | h | h | h | h | h | h | h | h | h <;> subst h <;> rfl
  · rw [if_neg h]
    simp only [optionKeys, List.mem_cons, List.mem_singleton, List.not_mem_nil, or_false,
      not_or] at h
    obtain ⟨h1, h2, h3, h4, h5, h6, h7, h8, h9, h10⟩ := h
    rw [if_neg h1, if_neg h2, if_neg h3, if_neg h4, if_neg h5, if_neg h6, if_neg h7, if_neg h8,
      if_neg h9, if_neg h10]

theorem foldl_stripKey (rest pre : List (String × List String))
    (h : ((pre ++ rest).map Prod.fst).Nodup) :
    (rest.map Prod.fst).foldl (stripKey (pre ++ rest))
        (pre.filter (fun kv => decide (kv.1 ∉ optionKeys)))
      = (pre ++ rest).filter (fun kv => decide (kv.1 ∉ optionKeys)) := by
  induction rest generalizing pre with
  | nil => simp
  | cons kv rest ih =>
    have hassoc : pre ++ kv :: rest = (pre ++ [kv]) ++ rest := by simp
    have hnot : kv.1 ∉ pre.map Prod.fst := by
      rw [List.map_append, List.nodup_append] at h
      intro hmem
      exact h.2.2 hmem (by simp)
    have hstep : stripKey (pre ++ kv :: rest) (pre.filter (fun kv => decide (kv.1 ∉ optionKeys)))
        kv.1 = (pre ++ [kv]).filter (fun kv => decide (kv.1 ∉ optionKeys)) := by
      rw [stripKey_eq]
      by_cases hk : kv.1 ∈ optionKeys
      · rw [if_pos hk]
        simp [List.filter_append, hk]
      · rw [if_neg hk]
        have hnot2 : kv.1 ∉ (pre.filter (fun kv => decide (kv.1 ∉ optionKeys))).map Prod.fst := by
          intro hmem
          obtain ⟨x, hx, hx1⟩ := List.mem_map.1 hmem
          exact hnot (List.mem_map.2 ⟨x, (List.mem_filter.1 hx).1, hx1⟩)
        have hget : mapGet (pre ++ kv :: rest) kv.1 = kv.2 := by
          rw [mapGet_append pre _ _ hnot]
          show (if kv.1 = kv.1 then kv.2 else mapGet rest kv.1) = kv.2
          rw [if_pos rfl]
        rw [mapSet_of_not_mem _ _ _ hnot2, hget]
        simp [List.filter_append, hk]
    rw [List.map_cons, List.foldl_cons, hstep, hassoc]
    rw [hassoc] at h
    exact ih (pre ++ [kv]) h

/-- For a map, whose keys are distinct, `StripOurOptions` builds the map
without the entries of the option keys. -/
theorem strippedValues_eq_filter (values : List (String × List String))
    (h : (values.map Prod.fst).Nodup) :
    strippedValues values = values.filter (fun kv => decide (kv.1 ∉ optionKeys)) := by
  have := foldl_stripKey values [] (by simpa using h)
  simpa [strippedValues] using this

end Imageproxy

namespace Imageproxy

open Go

/-- C22: `StripOurOptions` deletes exactly the option vocabulary.  It returns an
error exactly when `url.ParseQuery` rejects the raw query.  When the raw query
parses to the map `values` and the encoded form of the map it builds reads
back, it returns a text in which `url.ParseQuery` finds each key once, none
of the keys mode, flip, format, rotate, quality, signature, crop, width,
height, size, and every other key of `values` with exactly its list of
values. -/
theorem C22_strip_deletes_exactly_option_keys (lib : QueryLib) (rawQuery : String) :
    (StripOurOptions lib rawQuery = none ↔ lib.ParseQuery rawQuery = none)
      ∧ ∀ values, lib.ParseQuery rawQuery = some values → (values.map Prod.fst).Nodup →
          ReadsBackValues lib (strippedValues values) →
          ∃ s out, StripOurOptions lib rawQuery = some s ∧ lib.ParseQuery s = some out
            ∧ (out.map Prod.fst).Nodup
            ∧ ∀ k vs, (k, vs) ∈ out ↔ (k ∉ optionKeys ∧ (k, vs) ∈ values) := by
  constructor
  · unfold StripOurOptions
    cases lib.ParseQuery rawQuery <;> simp
  · intro values hparse hkeys hback
    unfold ReadsBackValues at hback
    cases hout : lib.ParseQuery (lib.Encode (strippedValues values)) with
    | none =>
      rw [hout] at hback
      exact absurd hback (by simp)
    | some out =>
      rw [hout] at hback
      have hperm : out.Perm (values.filter (fun kv => decide (kv.1 ∉ optionKeys))) := by
        rw [← strippedValues_eq_filter values hkeys]
        exact hback
      refine ⟨lib.Encode (strippedValues values), out, ?_, hout, ?_, ?_⟩
      · unfold StripOurOptions
        rw [hparse]
      · rw [(hperm.map Prod.fst).nodup_iff]
        exact (List.Sublist.map Prod.fst (List.filter_sublist _)).nodup hkeys
      · intro k vs
        rw [hperm.mem_iff, List.mem_filter]
        simp only [decide_eq_true_eq]
        exact ⟨fun h => ⟨h.2, h.1⟩, fun h => ⟨h.2, h.1⟩⟩

/-- Witness of C22: the raw query
`width=100&foo=1&mode=fit&foo=2&bar=a%20b&Size=3` becomes
`Size=3&bar=a+b&foo=1&foo=2`, and the raw query `a=%zz`, which does not parse,
gives an error. -/
theorem C22_witness :
    StripOurOptions netQuery mixedQuery = some "Size=3&bar=a+b&foo=1&foo=2"
      ∧ StripOurOptions netQuery "a=%zz" = none
      ∧ ∃ s out, StripOurOptions netQuery mixedQuery = some s ∧ netQuery.ParseQuery s = some out
          ∧ (out.map Prod.fst).Nodup
          ∧ ∀ k vs, (k, vs) ∈ out
              ↔ (k ∉ optionKeys
                  ∧ (k, vs) ∈ [("width", ["100"]), ("foo", ["1", "2"]), ("mode", ["fit"]),
                      ("bar", ["a b"]), ("Size", ["3"])]) :=
  ⟨by decide,
    (C22_strip_deletes_exactly_option_keys netQuery "a=%zz").1.2 (by decide),
    (C22_strip_deletes_exactly_option_keys netQuery mixedQuery).2
      [("width", ["100"]), ("foo", ["1", "2"]), ("mode", ["fit"]), ("bar", ["a b"]),
        ("Size", ["3"])]
      (by decide) (by decide) (by decide)⟩

end Imageproxy

/-! ## Slices out of range -/

namespace Imageproxy

open Go

/-- C23 fails on the code: with the prefix `/prefix/` registered, the inbound
path `/prefix` has the trimmed prefix `/prefix` of length 7 as a prefix, and
the slice of `prefix` from offset 7 is out of range; on the empty inbound path
the slice from offset 1 is out of range.  In both cases no text reaches
`parseURL`, and `buildFinalAbsoluteURL` and `NewRequest` panic. -/
theorem C23_prefix_stripping_slices_out_of_range :
    bestMatchingConfig netURL prefixRegistry prefixOnlyRequest.URL
        = ("/prefix/", some plainConfig)
      ∧ sliceFrom "/prefix" 1 = some "prefix"
      ∧ len (strings.TrimRight "/prefix/" '/') = 7
      ∧ sliceFrom "prefix" 7 = none
      ∧ parseURLArgument netURL prefixRegistry prefixOnlyRequest.URL = none
      ∧ buildFinalAbsoluteURL netURL prefixRegistry prefixOnlyRequest.URL = Outcome.panic
      ∧ NewRequest netURL prefixOnlyRequest prefixRegistry prefixRegistry = Outcome.panic
      ∧ sliceFrom "" 1 = none
      ∧ buildFinalAbsoluteURL netURL emptyRegistry emptyPathRequest.URL = Outcome.panic
      ∧ NewRequest netURL emptyPathRequest emptyRegistry emptyRegistry = Outcome.panic := by
  decide

end Imageproxy
